import Mathlib

set_option maxHeartbeats 1000000

/- Shallow embedding of hwloc2nffg (src/hwloc2nffg/src/hwloc2nffg.cpp):
   the tree-to-graph reduction `add_nodes`, the identifier allocator `ID`,
   and the classification / naming helpers, together with proofs about them. -/

/-- Node type tags of the input topology tree.  These model the hwloc object
types that the program inspects (HWLOC_OBJ_PU, HWLOC_OBJ_CORE,
HWLOC_OBJ_MACHINE, HWLOC_OBJ_OS_DEVICE) plus further structural types
(bus, cache) mentioned by the specification's fixed vocabulary. -/
inductive HwType : Type where
  | PU
  | Core
  | Machine
  | Bus
  | OSDevice
  | Cache
deriving DecidableEq

/-- Modelled from the spec: the short human-readable label produced by
hwloc_obj_type_snprintf (a function of the external hwloc library, not part
of this repository).  Section 4.3 of the spec describes it as "a short
human-readable string such as 'Core' or 'PU'" derived from the type tag. -/
def get_node_type : HwType → String
  | .PU => "PU"
  | .Core => "Core"
  | .Machine => "Machine"
  | .Bus => "Bus"
  | .OSDevice => "OSDevice"
  | .Cache => "Cache"

/-- ASCII lower-casing of a character code, as C tolower does in the
default locale: map codes 65-90 (A-Z) to 97-122 (a-z). -/
def lower_code (c : Char) : Nat :=
  if 65 ≤ c.toNat ∧ c.toNat ≤ 90 then c.toNat + 32 else c.toNat

/-- Case-insensitive string equality, modelling strcasecmp(a, b) == 0:
the two character sequences agree after ASCII lower-casing. -/
def strcaseeq (a b : String) : Bool :=
  a.data.map lower_code == b.data.map lower_code

mutual
/-- A topology-tree node (hwloc_obj_t): type tag, optional name, optional
OS-assigned index (the C code stores the absent index as (unsigned)-1,
modelled here as `none`), metadata key/value entries (infos), children. -/
inductive HwObj : Type where
  | mk : HwType → Option String → Option Nat → List (String × String) → HwObjList → HwObj

/-- The ordered child list of a topology node. -/
inductive HwObjList : Type where
  | nil : HwObjList
  | cons : HwObj → HwObjList → HwObjList
end

def HwObj.hwtype : HwObj → HwType
  | .mk t _ _ _ _ => t

def HwObj.objname : HwObj → Option String
  | .mk _ n _ _ _ => n

def HwObj.os_index : HwObj → Option Nat
  | .mk _ _ i _ _ => i

def HwObj.infos : HwObj → List (String × String)
  | .mk _ _ _ xs _ => xs

def HwObj.children : HwObj → HwObjList
  | .mk _ _ _ _ c => c

/-- The identifier allocator (class ID).  `lastfreeid` backs
`get_next_global_id`; `lastfreeidfortype` backs `get_next_id_for_type`.
The C++ `map<string, unsigned int>` that inserts 0 on first lookup is
modelled as a total function defaulting to 0. -/
structure ID : Type where
  lastfreeid : Nat
  lastfreeidfortype : String → Nat

/-- ID::get_next_id_for_type: return the current per-type counter for
`nodetype` and increment it (only for that type label). -/
def ID.get_next_id_for_type (id : ID) (nodetype : String) : Nat × ID :=
  (id.lastfreeidfortype nodetype,
   { id with lastfreeidfortype :=
       fun t => if t = nodetype then id.lastfreeidfortype nodetype + 1
                else id.lastfreeidfortype t })

/-- ID::get_next_global_id: return lastfreeid and increment it. -/
def ID.get_next_global_id (id : ID) : Nat × ID :=
  (id.lastfreeid, { id with lastfreeid := id.lastfreeid + 1 })

/-- network_sap: a node is a network service-access point iff its type is
HWLOC_OBJ_OS_DEVICE and one of its info entries has a key that matches
"address" case-insensitively. -/
def network_sap (node : HwObj) : Bool :=
  if node.hwtype = HwType.OSDevice then
    node.infos.any (fun kv => strcaseeq kv.1 "address")
  else
    false

/-- required_by_type: PU nodes are always required; OS devices are required
iff they are network SAPs; nothing else is required. -/
def required_by_type (node : HwObj) : Bool :=
  if node.hwtype = HwType.PU then
    true
  else if node.hwtype = HwType.OSDevice then
    network_sap node
  else
    false

/-- Whether the node's type takes part in the `type#os_index` naming rule
(the PU / Core / Machine disjunction at lines 108-110 of the source). -/
def indexed_type (t : HwType) : Bool :=
  t = HwType.PU || t = HwType.Core || t = HwType.Machine

/-- get_node_name: a SAP with a provided name keeps that name verbatim;
a PU/Core/Machine carrying a valid os_index is named "type#index"; every
other node is named "type!n" with n drawn from the type-scoped allocator. -/
def get_node_name (obj : HwObj) (id : ID) : String × ID :=
  match obj.objname, network_sap obj with
  | some n, true => (n, id)
  | _, _ =>
    match obj.os_index, indexed_type obj.hwtype with
    | some ix, true => (get_node_type obj.hwtype ++ "#" ++ toString ix, id)
    | _, _ =>
      let r := id.get_next_id_for_type (get_node_type obj.hwtype)
      (get_node_type obj.hwtype ++ "!" ++ toString r.1, r.2)

/-- Resource record of an infrastructure node ("resources" object). -/
structure Resources : Type where
  cpu : Nat
  mem : Nat
  storage : Nat
  delay : ℚ
  bandwidth : Nat
deriving DecidableEq

/-- An emitted infrastructure node record (appended to node_infras). -/
structure InfraNode : Type where
  id : String
  name : String
  ports : List Nat
  domain : String
  ntype : String
  supported : Option (List String)
  resources : Resources
deriving DecidableEq

/-- An emitted service-access-point record (appended to node_saps); it has
no domain, type, supported or resources fields. -/
structure SapNode : Type where
  id : String
  name : String
  ports : List Nat
deriving DecidableEq

/-- An emitted edge record (appended to node_edges). -/
structure Edge : Type where
  id : Nat
  src_node : String
  src_port : Nat
  dst_node : String
  dst_port : Nat
  delay : ℚ
  bandwidth : Nat
deriving DecidableEq

/-- The traversal state: the three output collections threaded by reference
through add_nodes, plus the allocator. -/
structure St : Type where
  node_saps : List SapNode
  node_infras : List InfraNode
  node_edges : List Edge
  id : ID

/-- The infrastructure record built for a materialized non-SAP node
(lines 185-215 of the source): id = name = node_name, domain "INTERNAL";
a PU becomes type "EE" with the capability list and the
{cpu 1, mem 32000, storage 150, delay 0.5, bandwidth 1000} resources;
every other node becomes type "SDN-SWITCH" with zeroed cpu/mem/storage. -/
def mk_infra (t : HwType) (node_name : String) (ports : List Nat) : InfraNode :=
  if t = HwType.PU then
    { id := node_name, name := node_name, ports := ports, domain := "INTERNAL",
      ntype := "EE", supported := some ["headerDecompressor"],
      resources := { cpu := 1, mem := 32000, storage := 150, delay := 0.5, bandwidth := 1000 } }
  else
    { id := node_name, name := node_name, ports := ports, domain := "INTERNAL",
      ntype := "SDN-SWITCH", supported := none,
      resources := { cpu := 0, mem := 0, storage := 0, delay := 0.5, bandwidth := 1000 } }

/-- The edge-synthesis loop of add_nodes (lines 147-168): for each stub
port (dst_port, dst_node) collected from the children, allocate an edge id
and a source port id from the global counter, emit the edge with delay 0.1
and bandwidth 1000, and append the source port to the node's port list. -/
def edge_loop (node_name : String) (pairs : List (Nat × String)) (st : St) (ports : List Nat) :
    St × List Nat :=
  match pairs with
  | [] => (st, ports)
  | (dp, dn) :: rest =>
    let g1 := st.id.get_next_global_id
    let g2 := g1.2.get_next_global_id
    let e : Edge :=
      { id := g1.1, src_node := node_name, src_port := g2.1,
        dst_node := dn, dst_port := dp, delay := 0.1, bandwidth := 1000 }
    edge_loop node_name rest
      { st with node_edges := st.node_edges ++ [e], id := g2.2 }
      (ports ++ [g2.1])

mutual
/-- add_nodes (lines 119-225): post-order traversal.  Children are visited
first; a node is materialized iff some child contributed a stub port or the
node itself is required; a materialized node emits one edge per child stub
port, allocates one extra upward port, is appended to node_saps or
node_infras, and returns its single stub-port descriptor. -/
def add_nodes (st : St) (obj : HwObj) (depth : Nat) : St × Option (List (Nat × String)) :=
  match obj with
  | .mk ty nm oi ifs ch =>
    let rc := add_children st ch (depth + 1)
    let st1 := rc.1
    let allports := rc.2
    if !allports.isEmpty || required_by_type (HwObj.mk ty nm oi ifs ch) then
      let nres := get_node_name (HwObj.mk ty nm oi ifs ch) st1.id
      let node_name := nres.1
      let st2 : St := { st1 with id := nres.2 }
      let er := edge_loop node_name allports.flatten st2 []
      let st3 := er.1
      let gp := st3.id.get_next_global_id
      let port_gid := gp.1
      let st4 : St := { st3 with id := gp.2 }
      let ports := er.2 ++ [port_gid]
      let st5 : St :=
        if network_sap (HwObj.mk ty nm oi ifs ch) then
          { st4 with node_saps :=
              st4.node_saps ++ [{ id := node_name, name := node_name, ports := ports }] }
        else
          { st4 with node_infras := st4.node_infras ++ [mk_infra ty node_name ports] }
      (st5, some [(port_gid, node_name)])
    else
      (st1, none)

/-- The child loop of add_nodes (lines 130-135): visit each child in order
and collect the non-null returned stub-port collections. -/
def add_children (st : St) (objs : HwObjList) (depth : Nat) :
    St × List (List (Nat × String)) :=
  match objs with
  | .nil => (st, [])
  | .cons o rest =>
    let r1 := add_nodes st o depth
    let r2 := add_children r1.1 rest depth
    (r2.1,
     match r1.2 with
     | none => r2.2
     | some l => l :: r2.2)
end

/-- The freshly initialized allocator (all counters 0). -/
def initID : ID := { lastfreeid := 0, lastfreeidfortype := fun _ => 0 }

/-- The initial traversal state: empty collections, fresh allocator. -/
def initSt : St := { node_saps := [], node_infras := [], node_edges := [], id := initID }

/-- add_topology_tree restricted to the core (lines 245-253): run add_nodes
on the root with a fresh allocator and empty collections. -/
def add_topology_tree (root : HwObj) : St :=
  (add_nodes initSt root 0).1

mutual
/-- Whether the subtree rooted at a node contains any required node
(the node itself or a descendant). -/
def has_required : HwObj → Bool
  | .mk ty nm oi ifs ch =>
    required_by_type (HwObj.mk ty nm oi ifs ch) || has_required_list ch

/-- Whether any subtree in the list contains a required node. -/
def has_required_list : HwObjList → Bool
  | .nil => false
  | .cons o rest => has_required o || has_required_list rest
end

/-- Closed form of the edge records synthesized by edge_loop when the global
counter starts at g: the k-th pair gets edge id g+2k and source port g+2k+1. -/
def edgesFor (node_name : String) (g : Nat) : List (Nat × String) → List Edge
  | [] => []
  | (dp, dn) :: rest =>
    { id := g, src_node := node_name, src_port := g + 1,
      dst_node := dn, dst_port := dp, delay := 0.1, bandwidth := 1000 }
      :: edgesFor node_name (g + 2) rest

/-- Closed form of one materialization step of add_nodes: st1 is the state
after the children were processed, idA the allocator after naming, pairs the
flattened child stub ports.  The node's port list is the synthesized source
ports followed by the upward port pg. -/
def mat_out (ty : HwType) (sap : Bool) (node_name : String) (idA : ID)
    (pairs : List (Nat × String)) (st1 : St) : St × Option (List (Nat × String)) :=
  let g := idA.lastfreeid
  let E := edgesFor node_name g pairs
  let pg := g + 2 * pairs.length
  let P := E.map Edge.src_port ++ [pg]
  ({ node_saps := st1.node_saps ++
       (if sap then [{ id := node_name, name := node_name, ports := P }] else []),
     node_infras := st1.node_infras ++
       (if sap then [] else [mk_infra ty node_name P]),
     node_edges := st1.node_edges ++ E,
     id := { lastfreeid := pg + 1, lastfreeidfortype := idA.lastfreeidfortype } },
   some [(pg, node_name)])

/-- All port ids appearing in the node_saps and node_infras collections. -/
def St.portIds (st : St) : List Nat :=
  (st.node_saps.map SapNode.ports).flatten ++ (st.node_infras.map InfraNode.ports).flatten

/-- All edge ids appearing in the node_edges collection. -/
def St.edgeIds (st : St) : List Nat :=
  st.node_edges.map Edge.id

/-- All identifiers drawn from the global counter that appear in the output:
port ids across both node collections followed by the edge ids. -/
def St.allIds (st : St) : List Nat :=
  st.portIds ++ st.edgeIds

/-- The names of all emitted graph nodes (SAPs and infrastructure nodes). -/
def St.nodeNames (st : St) : List String :=
  st.node_saps.map SapNode.name ++ st.node_infras.map InfraNode.name

/-- An edge links the two node names a and b, taken as an undirected link. -/
def edgeTouches (e : Edge) (a b : String) : Prop :=
  (e.src_node = a ∧ e.dst_node = b) ∨ (e.src_node = b ∧ e.dst_node = a)

/-- Some edge of the collection directly links a and b. -/
def linked (E : List Edge) (a b : String) : Prop :=
  ∃ e ∈ E, edgeTouches e a b

/-- a and b are connected by a path of synthesized edges taken as
undirected links. -/
def connected (E : List Edge) : String → String → Prop :=
  Relation.ReflTransGen (linked E)

/-- The identifier-freshness transition invariant: going from state st to
state st' the global counter never decreases and the output identifiers
grow by a duplicate-free batch drawn from the counter interval. -/
def GoodTrans (st st' : St) : Prop :=
  st.id.lastfreeid ≤ st'.id.lastfreeid ∧
  ∃ Δ : List Nat,
    (st'.allIds : Multiset Nat) = (st.allIds : Multiset Nat) + (Δ : Multiset Nat) ∧
    Δ.Nodup ∧ ∀ i ∈ Δ, st.id.lastfreeid ≤ i ∧ i < st'.id.lastfreeid

/-- A leaf processing unit with OS index 0. -/
def puLeaf : HwObj := HwObj.mk HwType.PU none (some 0) [] HwObjList.nil

/-- The single-PU scenario tree: a machine root whose only child is a
processing unit with OS index 0. -/
def c1tree : HwObj :=
  HwObj.mk HwType.Machine none none [] (HwObjList.cons puLeaf HwObjList.nil)

/-- The empty-topology scenario tree: a machine root with no children and
no metadata. -/
def machineOnly : HwObj := HwObj.mk HwType.Machine none none [] HwObjList.nil

/-- An unnamed, indexless bus node. -/
def busObj : HwObj := HwObj.mk HwType.Bus none none [] HwObjList.nil

/-- An OS-level device named eth0 carrying an "Address" metadata entry
(a case variant of "address"), hence a network SAP. -/
def sapEth : HwObj :=
  HwObj.mk HwType.OSDevice (some "eth0") none [("Address", "00:11:22:33:44:55")] HwObjList.nil

/-- A machine root with a PU child and a SAP device child. -/
def mixTree : HwObj :=
  HwObj.mk HwType.Machine none none []
    (HwObjList.cons puLeaf (HwObjList.cons sapEth HwObjList.nil))

/-- ID::get_next_global_id with the C++ unsigned int width made explicit:
`lastfreeid` is a 32-bit counter, so `lastfreeid++` stores the increment
reduced modulo 2^32 and the counter repeats after 2^32 draws.  The plain
`ID.get_next_global_id` above idealizes this counter as unbounded; the
equivalence of the two traversals while fewer than 2^32 ids are drawn is
proved below. -/
def ID.get_next_global_id_u32 (id : ID) : Nat × ID :=
  (id.lastfreeid, { id with lastfreeid := (id.lastfreeid + 1) % 4294967296 })

/-- ID::get_next_id_for_type with the C++ unsigned int width made explicit:
the per-type counters of `map<string, unsigned int>` also wrap at 2^32. -/
def ID.get_next_id_for_type_u32 (id : ID) (nodetype : String) : Nat × ID :=
  (id.lastfreeidfortype nodetype,
   { id with lastfreeidfortype :=
       fun t => if t = nodetype then (id.lastfreeidfortype nodetype + 1) % 4294967296
                else id.lastfreeidfortype t })

/-- get_node_name over the 32-bit allocator (same rules, wrapping counters). -/
def get_node_name_u32 (obj : HwObj) (id : ID) : String × ID :=
  match obj.objname, network_sap obj with
  | some n, true => (n, id)
  | _, _ =>
    match obj.os_index, indexed_type obj.hwtype with
    | some ix, true => (get_node_type obj.hwtype ++ "#" ++ toString ix, id)
    | _, _ =>
      let r := id.get_next_id_for_type_u32 (get_node_type obj.hwtype)
      (get_node_type obj.hwtype ++ "!" ++ toString r.1, r.2)

/-- The edge-synthesis loop over the 32-bit allocator. -/
def edge_loop_u32 (node_name : String) (pairs : List (Nat × String)) (st : St)
    (ports : List Nat) : St × List Nat :=
  match pairs with
  | [] => (st, ports)
  | (dp, dn) :: rest =>
    let g1 := st.id.get_next_global_id_u32
    let g2 := g1.2.get_next_global_id_u32
    let e : Edge :=
      { id := g1.1, src_node := node_name, src_port := g2.1,
        dst_node := dn, dst_port := dp, delay := 0.1, bandwidth := 1000 }
    edge_loop_u32 node_name rest
      { st with node_edges := st.node_edges ++ [e], id := g2.2 }
      (ports ++ [g2.1])

mutual
/-- add_nodes over the 32-bit allocator: identical traversal, with every
counter draw reduced modulo 2^32, exactly as the C++ unsigned ints do. -/
def add_nodes_u32 (st : St) (obj : HwObj) (depth : Nat) :
    St × Option (List (Nat × String)) :=
  match obj with
  | .mk ty nm oi ifs ch =>
    let rc := add_children_u32 st ch (depth + 1)
    let st1 := rc.1
    let allports := rc.2
    if !allports.isEmpty || required_by_type (HwObj.mk ty nm oi ifs ch) then
      let nres := get_node_name_u32 (HwObj.mk ty nm oi ifs ch) st1.id
      let node_name := nres.1
      let st2 : St := { st1 with id := nres.2 }
      let er := edge_loop_u32 node_name allports.flatten st2 []
      let st3 := er.1
      let gp := st3.id.get_next_global_id_u32
      let port_gid := gp.1
      let st4 : St := { st3 with id := gp.2 }
      let ports := er.2 ++ [port_gid]
      let st5 : St :=
        if network_sap (HwObj.mk ty nm oi ifs ch) then
          { st4 with node_saps :=
              st4.node_saps ++ [{ id := node_name, name := node_name, ports := ports }] }
        else
          { st4 with node_infras := st4.node_infras ++ [mk_infra ty node_name ports] }
      (st5, some [(port_gid, node_name)])
    else
      (st1, none)

/-- The child loop of add_nodes over the 32-bit allocator. -/
def add_children_u32 (st : St) (objs : HwObjList) (depth : Nat) :
    St × List (List (Nat × String)) :=
  match objs with
  | .nil => (st, [])
  | .cons o rest =>
    let r1 := add_nodes_u32 st o depth
    let r2 := add_children_u32 r1.1 rest depth
    (r2.1,
     match r1.2 with
     | none => r2.2
     | some l => l :: r2.2)
end

/-- The core run over the 32-bit allocator (faithful to the C++ counters). -/
def add_topology_tree_u32 (root : HwObj) : St :=
  (add_nodes_u32 initSt root 0).1

/-- A child list of k copies of the PU leaf (all with OS index 0). -/
def pusRep : Nat → HwObjList
  | 0 => HwObjList.nil
  | n + 1 => HwObjList.cons puLeaf (pusRep n)

/-- A machine root with 2^32 + 1 processing-unit children: enough nodes to
make the 32-bit global counter wrap during one run. -/
def c3bigTree : HwObj :=
  HwObj.mk HwType.Machine none none [] (pusRep 4294967297)

/-- The sequence of upward-port ids drawn by k consecutive PU leaves when
the wrapping global counter starts at g. -/
def puPorts : Nat → Nat → List Nat
  | _, 0 => []
  | g, k + 1 => g :: puPorts ((g + 1) % 4294967296) k

/-- The wrapping global counter after k single draws starting at g. -/
def bumpN : Nat → Nat → Nat
  | g, 0 => g
  | g, k + 1 => bumpN ((g + 1) % 4294967296) k

/-- The allocator returned by get_node_name has the same global counter as
the one passed in (naming touches only the type-scoped counters). -/
theorem get_node_name_lastfreeid (obj : HwObj) (id : ID) :
    (get_node_name obj id).2.lastfreeid = id.lastfreeid := by
  unfold get_node_name
  split
  · rfl
  · split
    · rfl
    · simp [ID.get_next_id_for_type]

/-- Closed form of edge_loop: starting from global counter g it emits
edgesFor node_name g pairs, appends their source ports to the accumulator,
and advances the counter by 2 * pairs.length. -/
theorem edge_loop_eq (node_name : String) (pairs : List (Nat × String)) :
    ∀ (st : St) (ports : List Nat),
      edge_loop node_name pairs st ports =
        ({ st with
            node_edges := st.node_edges ++ edgesFor node_name st.id.lastfreeid pairs,
            id := { st.id with lastfreeid := st.id.lastfreeid + 2 * pairs.length } },
         ports ++ (edgesFor node_name st.id.lastfreeid pairs).map Edge.src_port) := by
  induction pairs with
  | nil =>
    intro st ports
    simp [edge_loop, edgesFor]
  | cons hd tl ih =>
    intro st ports
    obtain ⟨dp, dn⟩ := hd
    rw [edge_loop]
    rw [ih]
    have h1 : st.id.lastfreeid + 1 + 1 = st.id.lastfreeid + 2 := rfl
    have h2 : st.id.lastfreeid + 1 + 1 + 2 * tl.length = st.id.lastfreeid + 2 * (tl.length + 1) := by
      omega
    simp only [edgesFor, ID.get_next_global_id, List.map_cons, List.length_cons,
      List.cons_append, List.append_assoc, List.singleton_append, List.nil_append, h1, h2]

/-- Collapse rule branch of add_nodes: when no child contributed a stub
port and the node is not required, add_nodes returns the post-children
state unchanged and no stub port. -/
theorem add_nodes_pruned (st : St) (ty : HwType) (nm : Option String) (oi : Option Nat)
    (ifs : List (String × String)) (ch : HwObjList) (d : Nat)
    (h : (!(add_children st ch (d + 1)).2.isEmpty
          || required_by_type (HwObj.mk ty nm oi ifs ch)) = false) :
    add_nodes st (HwObj.mk ty nm oi ifs ch) d = ((add_children st ch (d + 1)).1, none) := by
  rw [add_nodes]
  simp only [h]
  simp

/-- Materialization branch of add_nodes, in closed form: when some child
contributed a stub port or the node is required, the result is mat_out of
the post-children state. -/
theorem add_nodes_materialized (st : St) (ty : HwType) (nm : Option String) (oi : Option Nat)
    (ifs : List (String × String)) (ch : HwObjList) (d : Nat)
    (h : (!(add_children st ch (d + 1)).2.isEmpty
          || required_by_type (HwObj.mk ty nm oi ifs ch)) = true) :
    add_nodes st (HwObj.mk ty nm oi ifs ch) d =
      mat_out ty (network_sap (HwObj.mk ty nm oi ifs ch))
        (get_node_name (HwObj.mk ty nm oi ifs ch) (add_children st ch (d + 1)).1.id).1
        (get_node_name (HwObj.mk ty nm oi ifs ch) (add_children st ch (d + 1)).1.id).2
        (add_children st ch (d + 1)).2.flatten
        (add_children st ch (d + 1)).1 := by
  rw [add_nodes]
  simp only [h]
  rw [edge_loop_eq]
  unfold mat_out
  have hg : (get_node_name (HwObj.mk ty nm oi ifs ch) (add_children st ch (d + 1)).1.id).2.lastfreeid
      = (add_children st ch (d + 1)).1.id.lastfreeid := get_node_name_lastfreeid _ _
  by_cases hs : network_sap (HwObj.mk ty nm oi ifs ch)
  · simp only [hs, if_true, ID.get_next_global_id]
    simp [hg]
  · simp only [hs, if_false, ID.get_next_global_id]
    simp [hg]

/-- edgesFor emits exactly one edge per stub-port descriptor. -/
theorem edgesFor_length (node_name : String) :
    ∀ (ps : List (Nat × String)) (g : Nat), (edgesFor node_name g ps).length = ps.length := by
  intro ps
  induction ps with
  | nil => intro g; rfl
  | cons hd tl ih =>
    intro g
    obtain ⟨dp, dn⟩ := hd
    simp [edgesFor, ih]

/-- The destination port/node of the synthesized edges are exactly the
collected child stub-port descriptors, in order. -/
theorem edgesFor_map_dst (node_name : String) :
    ∀ (ps : List (Nat × String)) (g : Nat),
      (edgesFor node_name g ps).map (fun e => (e.dst_port, e.dst_node)) = ps := by
  intro ps
  induction ps with
  | nil => intro g; rfl
  | cons hd tl ih =>
    intro g
    obtain ⟨dp, dn⟩ := hd
    simp [edgesFor, ih]

/-- Every synthesized edge has the materialized node as source, the fixed
attributes delay 0.1 and bandwidth 1000, and its edge id and source port id
drawn from the counter interval consumed by the loop. -/
theorem edgesFor_mem (node_name : String) :
    ∀ (ps : List (Nat × String)) (g : Nat) (e : Edge), e ∈ edgesFor node_name g ps →
      e.src_node = node_name ∧ e.delay = 0.1 ∧ e.bandwidth = 1000 ∧
      g ≤ e.id ∧ e.id < g + 2 * ps.length ∧
      g ≤ e.src_port ∧ e.src_port < g + 2 * ps.length := by
  intro ps
  induction ps with
  | nil =>
    intro g e he
    simp [edgesFor] at he
  | cons hd tl ih =>
    intro g e he
    obtain ⟨dp, dn⟩ := hd
    simp only [edgesFor, List.mem_cons] at he
    rcases he with he | he
    · subst he
      refine ⟨rfl, rfl, rfl, le_rfl, ?_, ?_, ?_⟩
      · show g < g + 2 * (tl.length + 1)
        omega
      · show g ≤ g + 1
        omega
      · show g + 1 < g + 2 * (tl.length + 1)
        omega
    · obtain ⟨h1, h2, h3, h4, h5, h6, h7⟩ := ih (g + 2) e he
      refine ⟨h1, h2, h3, by omega, by simp; omega, by omega, by simp; omega⟩

/-- The edge ids followed by the source-port ids of the synthesized edges
are a permutation of the consecutive counter values [g, g + 2n). -/
theorem edgesFor_perm (node_name : String) :
    ∀ (ps : List (Nat × String)) (g : Nat),
      ((edgesFor node_name g ps).map Edge.id ++ (edgesFor node_name g ps).map Edge.src_port).Perm
        (List.range' g (2 * ps.length)) := by
  intro ps
  induction ps with
  | nil => intro g; simp [edgesFor]
  | cons hd tl ih =>
    intro g
    obtain ⟨dp, dn⟩ := hd
    have h2 : 2 * (tl.length + 1) = 2 * tl.length + 1 + 1 := by omega
    simp only [edgesFor, List.map_cons, List.length_cons, h2, List.range'_succ,
      List.cons_append]
    refine List.Perm.cons _ ?_
    refine List.Perm.trans List.perm_middle ?_
    have : g + 1 + 1 = g + 2 := rfl
    rw [this]
    exact List.Perm.cons _ (ih (g + 2))

mutual
/-- A subtree with no required node anywhere is pruned entirely: the
traversal state is returned unchanged and no stub port is produced. -/
theorem prune_obj (obj : HwObj) : ∀ (st : St) (d : Nat), has_required obj = false →
    add_nodes st obj d = (st, none) := by
  cases obj with
  | mk ty nm oi ifs ch =>
    intro st d h
    rw [has_required] at h
    simp only [Bool.or_eq_false_iff] at h
    obtain ⟨h1, h2⟩ := h
    have hch := prune_list ch st (d + 1) h2
    have hcond : (!(add_children st ch (d + 1)).2.isEmpty
        || required_by_type (HwObj.mk ty nm oi ifs ch)) = false := by
      rw [hch]
      simp [h1]
    rw [add_nodes_pruned st ty nm oi ifs ch d hcond, hch]

/-- A list of subtrees with no required node anywhere contributes nothing:
state unchanged, no stub ports collected. -/
theorem prune_list (objs : HwObjList) : ∀ (st : St) (d : Nat),
    has_required_list objs = false → add_children st objs d = (st, []) := by
  cases objs with
  | nil =>
    intro st d _
    rfl
  | cons o rest =>
    intro st d h
    rw [has_required_list] at h
    simp only [Bool.or_eq_false_iff] at h
    obtain ⟨h1, h2⟩ := h
    have ho := prune_obj o st d h1
    have hr := prune_list rest st d h2
    simp [add_children, ho, hr]
end

/-- C2: a node that is not required and has no required descendant
contributes nothing to the output: add_nodes returns the incoming state
unchanged (so the node appears in no output collection and no edge can
reference it) and returns no stub port to its parent; instantiated at the
root machine with no children this gives empty output collections. -/
theorem c2_unrequired_contributes_nothing (st : St) (obj : HwObj) (d : Nat)
    (h : has_required obj = false) :
    add_nodes st obj d = (st, none) :=
  prune_obj obj st d h

/-- Witness for C2: the empty-topology scenario.  A root machine node with
no children and no metadata is not required and has no required descendant;
add_nodes leaves the initial (empty) state unchanged, so node_saps,
node_infras and edge_links are all empty. -/
theorem c2_witness :
    has_required machineOnly = false ∧
    add_nodes initSt machineOnly 0 = (initSt, none) ∧
    (add_topology_tree machineOnly).node_saps = [] ∧
    (add_topology_tree machineOnly).node_infras = [] ∧
    (add_topology_tree machineOnly).node_edges = [] :=
  ⟨by decide,
   c2_unrequired_contributes_nothing initSt machineOnly 0 (by decide),
   by decide, by decide, by decide⟩

/-- C1 counterexample: on the single-PU scenario (machine root whose only
child is a PU with OS index 0) the code emits two infrastructure nodes (the
PU and the materialized root) and one edge, refuting "exactly one
infrastructure node ... and the emitted edge collection is empty". -/
theorem c1_counterexample :
    ¬((add_topology_tree c1tree).node_infras.length = 1 ∧
      (add_topology_tree c1tree).node_edges = []) := by
  decide

/-- C1 amended: on the single-PU scenario the traversal produces exactly two
infrastructure nodes — the first named "PU#0" of type "EE" with exactly one
port, the second the materialized root — no SAPs, and exactly one edge,
from the root to "PU#0". -/
theorem c1_amended_single_pu :
    (add_topology_tree c1tree).node_infras.length = 2 ∧
    (add_topology_tree c1tree).node_infras.map InfraNode.name = ["PU#0", "Machine!0"] ∧
    (add_topology_tree c1tree).node_infras.map InfraNode.ntype = ["EE", "SDN-SWITCH"] ∧
    ((add_topology_tree c1tree).node_infras.head?.map (fun n => n.ports.length)) = some 1 ∧
    (add_topology_tree c1tree).node_saps = [] ∧
    (add_topology_tree c1tree).node_edges.map (fun e => (e.src_node, e.dst_node)) =
      [("Machine!0", "PU#0")] := by
  refine ⟨by decide, by decide, by decide, by decide, by decide, by decide⟩

/-- C7: network_sap holds exactly for OS-level-device nodes carrying a
metadata entry whose key case-insensitively matches "address" (illustrated
on the case variants "Address" and "ADDRESS", and refuted on a non-matching
key), and required_by_type holds for every PU unconditionally, for an OS
device exactly when it is a SAP, and for no other type. -/
theorem c7_classification (o : HwObj) :
    (network_sap o = true ↔
      (o.hwtype = HwType.OSDevice ∧ ∃ kv ∈ o.infos, strcaseeq kv.1 "address" = true)) ∧
    (required_by_type o = true ↔
      (o.hwtype = HwType.PU ∨ (o.hwtype = HwType.OSDevice ∧ network_sap o = true))) ∧
    strcaseeq "Address" "address" = true ∧
    strcaseeq "ADDRESS" "address" = true ∧
    strcaseeq "bus_id" "address" = false := by
  refine ⟨?_, ?_, by decide, by decide, by decide⟩
  · unfold network_sap
    by_cases ht : o.hwtype = HwType.OSDevice
    · simp [ht, List.any_eq_true]
    · simp [ht]
  · unfold required_by_type
    by_cases hp : o.hwtype = HwType.PU
    · simp [hp]
    · by_cases ht : o.hwtype = HwType.OSDevice
      · simp [hp, ht]
      · simp [hp, ht]

/-- C6: a SAP node with a provided name is named by that name verbatim; a
PU/Core/Machine node carrying a valid OS index is named type#index (with
the allocator untouched, hence independent of the traversal elsewhere); any
other materialized node is named type!n with n from the per-type allocator;
two unnamed indexless bus nodes get "Bus!0" then "Bus!1" in first-seen
order. -/
theorem c6_naming :
    (∀ (obj : HwObj) (id : ID) (n : String),
        network_sap obj = true → obj.objname = some n →
        get_node_name obj id = (n, id)) ∧
    (∀ (obj : HwObj) (id : ID) (ix : Nat),
        indexed_type obj.hwtype = true → obj.os_index = some ix →
        get_node_name obj id = (get_node_type obj.hwtype ++ "#" ++ toString ix, id)) ∧
    (∀ (nm : Option String) (ifs : List (String × String)) (ch : HwObjList) (id : ID),
        (get_node_name (HwObj.mk HwType.PU nm (some 3) ifs ch) id).1 = "PU#3") ∧
    (∀ (obj : HwObj) (id : ID),
        (network_sap obj && obj.objname.isSome) = false →
        (indexed_type obj.hwtype && obj.os_index.isSome) = false →
        get_node_name obj id =
          (get_node_type obj.hwtype ++ "!" ++
             toString (id.lastfreeidfortype (get_node_type obj.hwtype)),
           (id.get_next_id_for_type (get_node_type obj.hwtype)).2)) ∧
    ((get_node_name busObj initID).1 = "Bus!0" ∧
     (get_node_name busObj (get_node_name busObj initID).2).1 = "Bus!1") := by
  refine ⟨?_, ?_, ?_, ?_, by decide, by decide⟩
  · intro obj id n h1 h2
    simp [get_node_name, h1, h2]
  · intro obj id ix h1 h2
    have hs : network_sap obj = false := by
      unfold network_sap
      cases htype : obj.hwtype <;> simp_all [indexed_type]
    cases hn : obj.objname <;> simp [get_node_name, hs, hn, h2, h1]
  · intro nm ifs ch id
    cases nm <;> rfl
  · intro obj id h1 h2
    cases hn : obj.objname with
    | none =>
      cases hx : obj.os_index with
      | none => simp [get_node_name, hn, hx, ID.get_next_id_for_type]
      | some ix =>
        rw [hn] at h1
        rw [hx] at h2
        simp only [Option.isSome_some, Bool.and_true] at h2
        simp [get_node_name, hn, hx, h2, ID.get_next_id_for_type]
    | some a =>
      rw [hn] at h1
      simp only [Option.isSome_some, Bool.and_true] at h1
      cases hx : obj.os_index with
      | none => simp [get_node_name, hn, hx, h1, ID.get_next_id_for_type]
      | some ix =>
        rw [hx] at h2
        simp only [Option.isSome_some, Bool.and_true] at h2
        simp [get_node_name, hn, hx, h1, h2, ID.get_next_id_for_type]

/-- Witness for C6: the naming rules applied to concrete nodes — the named
SAP eth0, a PU with OS index 3, and the unnamed indexless bus. -/
theorem c6_witness :
    (network_sap sapEth = true ∧ sapEth.objname = some "eth0" ∧
      get_node_name sapEth initID = ("eth0", initID)) ∧
    get_node_name (HwObj.mk HwType.PU none (some 3) [] HwObjList.nil) initID =
      (get_node_type HwType.PU ++ "#" ++ toString 3, initID) ∧
    get_node_name busObj initID =
      (get_node_type busObj.hwtype ++ "!" ++
         toString (initID.lastfreeidfortype (get_node_type busObj.hwtype)),
       (initID.get_next_id_for_type (get_node_type busObj.hwtype)).2) :=
  ⟨⟨by decide, by decide,
    c6_naming.1 sapEth initID "eth0" (by decide) (by decide)⟩,
   c6_naming.2.1 (HwObj.mk HwType.PU none (some 3) [] HwObjList.nil) initID 3
     (by decide) (by decide),
   c6_naming.2.2.2.1 busObj initID (by decide) (by decide)⟩

/-- The port list stored in the built infrastructure record is the one
passed in, for both the EE and the SDN-SWITCH profile. -/
theorem mk_infra_ports (t : HwType) (node_name : String) (P : List Nat) :
    (mk_infra t node_name P).ports = P := by
  unfold mk_infra
  split <;> rfl

/-- GoodTrans is reflexive (empty batch of new identifiers). -/
theorem goodTrans_refl (st : St) : GoodTrans st st :=
  ⟨le_rfl, [], by simp, List.nodup_nil, by simp⟩

/-- GoodTrans composes: consecutive traversal steps stack their identifier
batches, which stay disjoint because they come from disjoint counter
intervals. -/
theorem goodTrans_trans {s t u : St} (h1 : GoodTrans s t) (h2 : GoodTrans t u) :
    GoodTrans s u := by
  obtain ⟨hle1, D1, he1, hn1, hb1⟩ := h1
  obtain ⟨hle2, D2, he2, hn2, hb2⟩ := h2
  refine ⟨le_trans hle1 hle2, D1 ++ D2, ?_, ?_, ?_⟩
  · rw [he2, he1, ← Multiset.coe_add, add_assoc]
  · rw [List.nodup_append]
    refine ⟨hn1, hn2, ?_⟩
    intro a haD1 haD2
    have b1 := hb1 a haD1
    have b2 := hb2 a haD2
    omega
  · intro i hi
    rcases List.mem_append.mp hi with h | h
    · have := hb1 i h
      omega
    · have := hb2 i h
      omega

/-- The global counter after a materialization step: one new id per edge,
one per synthesized source port, plus the upward port. -/
theorem mat_out_lastfreeid (ty : HwType) (sap : Bool) (node_name : String) (idA : ID)
    (pairs : List (Nat × String)) (st1 : St) :
    (mat_out ty sap node_name idA pairs st1).1.id.lastfreeid =
      idA.lastfreeid + 2 * pairs.length + 1 := by
  unfold mat_out
  cases sap <;> rfl

/-- A materialization step is a GoodTrans: all identifiers it adds to the
output (source ports, the upward port, edge ids) are exactly the fresh
counter values [g, g + 2n], pairwise distinct and above everything
allocated before. -/
theorem goodTrans_mat (ty : HwType) (sap : Bool) (node_name : String) (idA : ID)
    (pairs : List (Nat × String)) (st1 : St)
    (hg : idA.lastfreeid = st1.id.lastfreeid) :
    GoodTrans st1 (mat_out ty sap node_name idA pairs st1).1 := by
  have hp : ((edgesFor node_name idA.lastfreeid pairs).map Edge.id : Multiset ℕ)
      + ((edgesFor node_name idA.lastfreeid pairs).map Edge.src_port : Multiset ℕ)
      = (List.range' idA.lastfreeid (2 * pairs.length) : List ℕ) := by
    rw [Multiset.coe_add]
    exact Multiset.coe_eq_coe.mpr (edgesFor_perm node_name pairs idA.lastfreeid)
  have key : ((((edgesFor node_name idA.lastfreeid pairs).map Edge.src_port
        ++ [idA.lastfreeid + 2 * pairs.length])
        ++ (edgesFor node_name idA.lastfreeid pairs).map Edge.id : List ℕ) : Multiset ℕ)
      = (List.range' idA.lastfreeid (2 * pairs.length + 1) : List ℕ) := by
    rw [List.range'_1_concat]
    rw [← Multiset.coe_add, ← Multiset.coe_add, ← Multiset.coe_add, ← hp]
    abel
  refine ⟨?_, ((edgesFor node_name idA.lastfreeid pairs).map Edge.src_port
      ++ [idA.lastfreeid + 2 * pairs.length])
      ++ (edgesFor node_name idA.lastfreeid pairs).map Edge.id, ?_, ?_, ?_⟩
  · rw [mat_out_lastfreeid]
    omega
  · cases sap
    · simp only [mat_out, if_false, Bool.false_eq_true, reduceIte]
      simp only [St.allIds, St.portIds, St.edgeIds, List.map_append, List.flatten_append,
        List.map_cons, List.map_nil, List.flatten_cons, List.flatten_nil, mk_infra_ports,
        List.append_nil]
      simp only [← Multiset.coe_add]
      abel
    · simp only [mat_out, reduceIte]
      simp only [St.allIds, St.portIds, St.edgeIds, List.map_append, List.flatten_append,
        List.map_cons, List.map_nil, List.flatten_cons, List.flatten_nil,
        List.append_nil]
      simp only [← Multiset.coe_add]
      abel
  · rw [← Multiset.coe_nodup, key, Multiset.coe_nodup]
    exact List.nodup_range' _ _
  · intro i hi
    have : i ∈ (List.range' idA.lastfreeid (2 * pairs.length + 1) : List ℕ) := by
      rw [← Multiset.mem_coe, ← key, Multiset.mem_coe]
      exact hi
    rw [List.mem_range'_1] at this
    rw [mat_out_lastfreeid]
    omega

mutual
/-- Processing one subtree is a GoodTrans from the incoming state. -/
theorem goodTrans_add_nodes (obj : HwObj) : ∀ (st : St) (d : Nat),
    GoodTrans st (add_nodes st obj d).1 := by
  cases obj with
  | mk ty nm oi ifs ch =>
    intro st d
    have hch := goodTrans_add_children ch st (d + 1)
    by_cases hc : (!(add_children st ch (d + 1)).2.isEmpty
        || required_by_type (HwObj.mk ty nm oi ifs ch)) = true
    · rw [add_nodes_materialized st ty nm oi ifs ch d hc]
      refine goodTrans_trans hch (goodTrans_mat _ _ _ _ _ _ ?_)
      exact get_node_name_lastfreeid _ _
    · simp only [Bool.not_eq_true] at hc
      rw [add_nodes_pruned st ty nm oi ifs ch d hc]
      exact hch

/-- Processing a child list is a GoodTrans from the incoming state. -/
theorem goodTrans_add_children (objs : HwObjList) : ∀ (st : St) (d : Nat),
    GoodTrans st (add_children st objs d).1 := by
  cases objs with
  | nil =>
    intro st d
    exact goodTrans_refl st
  | cons o rest =>
    intro st d
    have h1 := goodTrans_add_nodes o st d
    have h2 := goodTrans_add_children rest (add_nodes st o d).1 d
    have hfst : (add_children st (HwObjList.cons o rest) d).1 =
        (add_children (add_nodes st o d).1 rest d).1 := by
      simp [add_children]
    rw [hfst]
    exact goodTrans_trans h1 h2
end

/-- Identifier uniqueness over the idealized (unbounded) counter: the port
ids across node_saps and node_infras together with the edge ids form a
duplicate-free list.  This idealizes the C++ unsigned int global counter as
an unbounded Nat; it transfers to the real 32-bit counter only while the
run draws fewer than 2^32 ids (see the amended C3 theorem below). -/
theorem ids_nodup_unbounded (t : HwObj) :
    ((add_topology_tree t).portIds ++ (add_topology_tree t).edgeIds).Nodup := by
  obtain ⟨-, D, he, hn, -⟩ := goodTrans_add_nodes t initSt 0
  have h0 : (initSt.allIds : Multiset ℕ) = (([] : List ℕ) : Multiset ℕ) := rfl
  rw [h0] at he
  have he' : ((add_topology_tree t).allIds : Multiset ℕ) = (D : Multiset ℕ) := by
    show (((add_nodes initSt t 0).1).allIds : Multiset ℕ) = (D : Multiset ℕ)
    rw [he]
    simp
  have : ((add_topology_tree t).allIds).Nodup := by
    rw [← Multiset.coe_nodup, he', Multiset.coe_nodup]
    exact hn
  exact this

/-- C5: for a materialized node, one edge is synthesized per child stub
descriptor (fresh edge id, source = the node's name with a freshly
allocated source port that is also appended to the node's port list,
destination taken verbatim from the descriptor, delay 0.1, bandwidth 1000);
exactly one extra upward port is allocated and appended, and it forms,
together with the node's name, the single stub descriptor returned to the
parent; hence the port list has length (number of child stub ports) + 1. -/
theorem c5_materialization (st : St) (ty : HwType) (nm : Option String) (oi : Option Nat)
    (ifs : List (String × String)) (ch : HwObjList) (d : Nat)
    (hc : (!(add_children st ch (d + 1)).2.isEmpty
          || required_by_type (HwObj.mk ty nm oi ifs ch)) = true) :
    let rc := add_children st ch (d + 1)
    let pairs := rc.2.flatten
    let nres := get_node_name (HwObj.mk ty nm oi ifs ch) rc.1.id
    let E := edgesFor nres.1 nres.2.lastfreeid pairs
    let pg := nres.2.lastfreeid + 2 * pairs.length
    let P := E.map Edge.src_port ++ [pg]
    add_nodes st (HwObj.mk ty nm oi ifs ch) d =
      ({ node_saps := rc.1.node_saps ++
           (if network_sap (HwObj.mk ty nm oi ifs ch) then
              [{ id := nres.1, name := nres.1, ports := P }] else []),
         node_infras := rc.1.node_infras ++
           (if network_sap (HwObj.mk ty nm oi ifs ch) then []
            else [mk_infra ty nres.1 P]),
         node_edges := rc.1.node_edges ++ E,
         id := { lastfreeid := pg + 1, lastfreeidfortype := nres.2.lastfreeidfortype } },
       some [(pg, nres.1)]) ∧
    E.length = pairs.length ∧
    E.map (fun e => (e.dst_port, e.dst_node)) = pairs ∧
    (∀ e ∈ E, e.src_node = nres.1 ∧ e.delay = 0.1 ∧ e.bandwidth = 1000 ∧
       e.src_port ∈ P ∧ nres.2.lastfreeid ≤ e.id ∧ e.id < pg ∧
       nres.2.lastfreeid ≤ e.src_port ∧ e.src_port < pg) ∧
    P.length = pairs.length + 1 := by
  have hm := add_nodes_materialized st ty nm oi ifs ch d hc
  dsimp only
  refine ⟨?_, edgesFor_length _ _ _, edgesFor_map_dst _ _ _, ?_, ?_⟩
  · rw [hm]
    rfl
  · intro e he
    obtain ⟨h1, h2, h3, h4, h5, h6, h7⟩ := edgesFor_mem _ _ _ e he
    exact ⟨h1, h2, h3, List.mem_append_left _ (List.mem_map_of_mem _ he), h4, h5, h6, h7⟩
  · simp [edgesFor_length]

/-- Witness for C5: the materialization step at the root of the single-PU
scenario tree (one child stub descriptor, hence one edge and two ports). -/
theorem c5_witness :
    let rc := add_children initSt (HwObjList.cons puLeaf HwObjList.nil) 1
    let pairs := rc.2.flatten
    let nres := get_node_name (HwObj.mk HwType.Machine none none []
        (HwObjList.cons puLeaf HwObjList.nil)) rc.1.id
    let E := edgesFor nres.1 nres.2.lastfreeid pairs
    let pg := nres.2.lastfreeid + 2 * pairs.length
    let P := E.map Edge.src_port ++ [pg]
    add_nodes initSt (HwObj.mk HwType.Machine none none []
        (HwObjList.cons puLeaf HwObjList.nil)) 0 =
      ({ node_saps := rc.1.node_saps ++
           (if network_sap (HwObj.mk HwType.Machine none none []
                (HwObjList.cons puLeaf HwObjList.nil)) then
              [{ id := nres.1, name := nres.1, ports := P }] else []),
         node_infras := rc.1.node_infras ++
           (if network_sap (HwObj.mk HwType.Machine none none []
                (HwObjList.cons puLeaf HwObjList.nil)) then []
            else [mk_infra HwType.Machine nres.1 P]),
         node_edges := rc.1.node_edges ++ E,
         id := { lastfreeid := pg + 1, lastfreeidfortype := nres.2.lastfreeidfortype } },
       some [(pg, nres.1)]) ∧
    E.length = pairs.length ∧
    E.map (fun e => (e.dst_port, e.dst_node)) = pairs ∧
    (∀ e ∈ E, e.src_node = nres.1 ∧ e.delay = 0.1 ∧ e.bandwidth = 1000 ∧
       e.src_port ∈ P ∧ nres.2.lastfreeid ≤ e.id ∧ e.id < pg ∧
       nres.2.lastfreeid ≤ e.src_port ∧ e.src_port < pg) ∧
    P.length = pairs.length + 1 :=
  c5_materialization initSt HwType.Machine none none []
    (HwObjList.cons puLeaf HwObjList.nil) 0 (by decide)

/-- node_saps component of a materialization step. -/
theorem mat_out_saps (ty : HwType) (sap : Bool) (node_name : String) (idA : ID)
    (pairs : List (Nat × String)) (st1 : St) :
    (mat_out ty sap node_name idA pairs st1).1.node_saps =
      st1.node_saps ++ (if sap then
        [{ id := node_name, name := node_name,
           ports := (edgesFor node_name idA.lastfreeid pairs).map Edge.src_port
             ++ [idA.lastfreeid + 2 * pairs.length] }] else []) := by
  cases sap <;> rfl

/-- node_infras component of a materialization step. -/
theorem mat_out_infras (ty : HwType) (sap : Bool) (node_name : String) (idA : ID)
    (pairs : List (Nat × String)) (st1 : St) :
    (mat_out ty sap node_name idA pairs st1).1.node_infras =
      st1.node_infras ++ (if sap then [] else
        [mk_infra ty node_name
          ((edgesFor node_name idA.lastfreeid pairs).map Edge.src_port
            ++ [idA.lastfreeid + 2 * pairs.length])]) := by
  cases sap <;> rfl

/-- node_edges component of a materialization step. -/
theorem mat_out_edges (ty : HwType) (sap : Bool) (node_name : String) (idA : ID)
    (pairs : List (Nat × String)) (st1 : St) :
    (mat_out ty sap node_name idA pairs st1).1.node_edges =
      st1.node_edges ++ edgesFor node_name idA.lastfreeid pairs := by
  cases sap <;> rfl

/-- Allocator component of a materialization step. -/
theorem mat_out_id (ty : HwType) (sap : Bool) (node_name : String) (idA : ID)
    (pairs : List (Nat × String)) (st1 : St) :
    (mat_out ty sap node_name idA pairs st1).1.id =
      { lastfreeid := idA.lastfreeid + 2 * pairs.length + 1,
        lastfreeidfortype := idA.lastfreeidfortype } := by
  cases sap <;> rfl

/-- Returned stub-port descriptor of a materialization step. -/
theorem mat_out_snd (ty : HwType) (sap : Bool) (node_name : String) (idA : ID)
    (pairs : List (Nat × String)) (st1 : St) :
    (mat_out ty sap node_name idA pairs st1).2 =
      some [(idA.lastfreeid + 2 * pairs.length, node_name)] := by
  cases sap <;> rfl

/-- The name stored in the built infrastructure record is the node name,
for both profiles. -/
theorem mk_infra_name (t : HwType) (node_name : String) (P : List Nat) :
    (mk_infra t node_name P).name = node_name := by
  unfold mk_infra
  split <;> rfl

/-- The first component of add_children on a cons cell. -/
theorem add_children_cons_fst (st : St) (o : HwObj) (rest : HwObjList) (d : Nat) :
    (add_children st (HwObjList.cons o rest) d).1 =
      (add_children (add_nodes st o d).1 rest d).1 := by
  simp [add_children]

mutual
/-- Every infrastructure record in the state after a subtree visit either
was already there or is a mk_infra record; every SAP record either was
already there or has id = name. -/
theorem records_add_nodes (obj : HwObj) : ∀ (st : St) (d : Nat),
    (∀ n ∈ (add_nodes st obj d).1.node_infras,
        n ∈ st.node_infras ∨ ∃ t name P, n = mk_infra t name P) ∧
    (∀ s ∈ (add_nodes st obj d).1.node_saps,
        s ∈ st.node_saps ∨ ∃ name P, s = SapNode.mk name name P) := by
  cases obj with
  | mk ty nm oi ifs ch =>
    intro st d
    obtain ⟨g1, g2⟩ := records_add_children ch st (d + 1)
    by_cases hc : (!(add_children st ch (d + 1)).2.isEmpty
        || required_by_type (HwObj.mk ty nm oi ifs ch)) = true
    · rw [add_nodes_materialized st ty nm oi ifs ch d hc]
      constructor
      · intro n hn
        rw [mat_out_infras] at hn
        rcases List.mem_append.mp hn with h | h
        · exact g1 n h
        · right
          by_cases hsap : network_sap (HwObj.mk ty nm oi ifs ch)
          · simp [hsap] at h
          · simp [hsap] at h
            exact ⟨ty, _, _, h⟩
      · intro s hs
        rw [mat_out_saps] at hs
        rcases List.mem_append.mp hs with h | h
        · exact g2 s h
        · right
          by_cases hsap : network_sap (HwObj.mk ty nm oi ifs ch)
          · simp [hsap] at h
            exact ⟨_, _, h⟩
          · simp [hsap] at h
    · simp only [Bool.not_eq_true] at hc
      rw [add_nodes_pruned st ty nm oi ifs ch d hc]
      exact ⟨g1, g2⟩

/-- Record-shape preservation along a child list. -/
theorem records_add_children (objs : HwObjList) : ∀ (st : St) (d : Nat),
    (∀ n ∈ (add_children st objs d).1.node_infras,
        n ∈ st.node_infras ∨ ∃ t name P, n = mk_infra t name P) ∧
    (∀ s ∈ (add_children st objs d).1.node_saps,
        s ∈ st.node_saps ∨ ∃ name P, s = SapNode.mk name name P) := by
  cases objs with
  | nil =>
    intro st d
    exact ⟨fun n hn => Or.inl hn, fun s hs => Or.inl hs⟩
  | cons o rest =>
    intro st d
    obtain ⟨a1, a2⟩ := records_add_nodes o st d
    obtain ⟨b1, b2⟩ := records_add_children rest (add_nodes st o d).1 d
    rw [add_children_cons_fst]
    constructor
    · intro n hn
      rcases b1 n hn with h | h
      · exact a1 n h
      · exact Or.inr h
    · intro s hs
      rcases b2 s hs with h | h
      · exact a2 s h
      · exact Or.inr h
end

/-- A network SAP is always a required node (it is an OS device and the
required predicate for OS devices is exactly network_sap). -/
theorem sap_required (o : HwObj) (h : network_sap o = true) : required_by_type o = true := by
  have ht : o.hwtype = HwType.OSDevice := by
    by_contra hne
    unfold network_sap at h
    rw [if_neg hne] at h
    exact Bool.false_ne_true h
  unfold required_by_type
  rw [ht]
  simp [h]

/-- C8: every emitted infrastructure record has domain "INTERNAL" and one of
the two fixed profiles — type "EE" with the capability list and resources
{cpu 1, mem 32000, storage 150, delay 0.5, bandwidth 1000}, or type
"SDN-SWITCH" with resources {cpu 0, mem 0, storage 0, delay 0.5,
bandwidth 1000}; a node classified as a SAP is emitted into the SAP
collection (a record with only id, name and ports) and contributes no
infrastructure record of its own; the "EE" profile is exactly the one of
processing units, every other type gets the "SDN-SWITCH" profile. -/
theorem c8_node_profiles :
    (∀ (t : HwObj), ∀ n ∈ (add_topology_tree t).node_infras,
        n.domain = "INTERNAL" ∧
        ((n.ntype = "EE" ∧ n.supported = some ["headerDecompressor"] ∧
          n.resources = { cpu := 1, mem := 32000, storage := 150,
                          delay := 0.5, bandwidth := 1000 }) ∨
         (n.ntype = "SDN-SWITCH" ∧ n.supported = none ∧
          n.resources = { cpu := 0, mem := 0, storage := 0,
                          delay := 0.5, bandwidth := 1000 }))) ∧
    (∀ (st : St) (ty : HwType) (nm : Option String) (oi : Option Nat)
       (ifs : List (String × String)) (ch : HwObjList) (d : Nat),
        network_sap (HwObj.mk ty nm oi ifs ch) = true →
        (add_nodes st (HwObj.mk ty nm oi ifs ch) d).1.node_infras =
          (add_children st ch (d + 1)).1.node_infras ∧
        ∃ P, (add_nodes st (HwObj.mk ty nm oi ifs ch) d).1.node_saps =
          (add_children st ch (d + 1)).1.node_saps ++
            [{ id := (get_node_name (HwObj.mk ty nm oi ifs ch)
                        (add_children st ch (d + 1)).1.id).1,
               name := (get_node_name (HwObj.mk ty nm oi ifs ch)
                        (add_children st ch (d + 1)).1.id).1,
               ports := P }]) ∧
    (∀ (name : String) (P : List Nat),
        mk_infra HwType.PU name P =
          { id := name, name := name, ports := P, domain := "INTERNAL",
            ntype := "EE", supported := some ["headerDecompressor"],
            resources := { cpu := 1, mem := 32000, storage := 150,
                           delay := 0.5, bandwidth := 1000 } }) ∧
    (∀ (t : HwType) (name : String) (P : List Nat), t ≠ HwType.PU →
        mk_infra t name P =
          { id := name, name := name, ports := P, domain := "INTERNAL",
            ntype := "SDN-SWITCH", supported := none,
            resources := { cpu := 0, mem := 0, storage := 0,
                           delay := 0.5, bandwidth := 1000 } }) := by
  refine ⟨?_, ?_, ?_, ?_⟩
  · intro t n hn
    rcases (records_add_nodes t initSt 0).1 n hn with h | ⟨ty, name, P, rfl⟩
    · simp [initSt] at h
    · unfold mk_infra
      by_cases hp : ty = HwType.PU
      · rw [if_pos hp]
        exact ⟨rfl, Or.inl ⟨rfl, rfl, rfl⟩⟩
      · rw [if_neg hp]
        exact ⟨rfl, Or.inr ⟨rfl, rfl, rfl⟩⟩
  · intro st ty nm oi ifs ch d hsap
    have hc : (!(add_children st ch (d + 1)).2.isEmpty
        || required_by_type (HwObj.mk ty nm oi ifs ch)) = true := by
      rw [sap_required _ hsap]
      simp
    rw [add_nodes_materialized st ty nm oi ifs ch d hc]
    constructor
    · rw [mat_out_infras]
      simp [hsap]
    · refine ⟨(edgesFor (get_node_name (HwObj.mk ty nm oi ifs ch)
          (add_children st ch (d + 1)).1.id).1
          (get_node_name (HwObj.mk ty nm oi ifs ch)
            (add_children st ch (d + 1)).1.id).2.lastfreeid
          (add_children st ch (d + 1)).2.flatten).map Edge.src_port
          ++ [(get_node_name (HwObj.mk ty nm oi ifs ch)
              (add_children st ch (d + 1)).1.id).2.lastfreeid
            + 2 * (add_children st ch (d + 1)).2.flatten.length], ?_⟩
      rw [mat_out_saps]
      simp [hsap]
  · intro name P
    rfl
  · intro t name P h
    unfold mk_infra
    rw [if_neg h]

/-- Witness for C8: the PU infrastructure record of the mixed tree carries
the EE profile, and the eth0 SAP device contributes a SAP record and no
infrastructure record. -/
theorem c8_witness :
    (let n0 : InfraNode :=
      { id := "PU#0", name := "PU#0", ports := [0], domain := "INTERNAL", ntype := "EE",
        supported := some ["headerDecompressor"],
        resources := { cpu := 1, mem := 32000, storage := 150,
                       delay := 0.5, bandwidth := 1000 } }
     n0.domain = "INTERNAL" ∧
       ((n0.ntype = "EE" ∧ n0.supported = some ["headerDecompressor"] ∧
         n0.resources = { cpu := 1, mem := 32000, storage := 150,
                          delay := 0.5, bandwidth := 1000 }) ∨
        (n0.ntype = "SDN-SWITCH" ∧ n0.supported = none ∧
         n0.resources = { cpu := 0, mem := 0, storage := 0,
                          delay := 0.5, bandwidth := 1000 }))) ∧
    ((add_nodes initSt sapEth 0).1.node_infras =
        (add_children initSt HwObjList.nil 1).1.node_infras ∧
      ∃ P, (add_nodes initSt sapEth 0).1.node_saps =
        (add_children initSt HwObjList.nil 1).1.node_saps ++
          [{ id := (get_node_name sapEth (add_children initSt HwObjList.nil 1).1.id).1,
             name := (get_node_name sapEth (add_children initSt HwObjList.nil 1).1.id).1,
             ports := P }]) :=
  ⟨c8_node_profiles.1 mixTree _ (List.mem_cons_self _ _),
   c8_node_profiles.2.1 initSt HwType.OSDevice (some "eth0") none
     [("Address", "00:11:22:33:44:55")] HwObjList.nil 0 (by decide)⟩

/-- C10: every record emitted into the SAP or infrastructure collection has
its id field equal to its name field (both are always assigned from the
same computed node name); edge endpoints carry node names, not ids, by
construction of the edge records. -/
theorem c10_id_equals_name (t : HwObj) :
    (∀ n ∈ (add_topology_tree t).node_infras, n.id = n.name) ∧
    (∀ s ∈ (add_topology_tree t).node_saps, s.id = s.name) := by
  constructor
  · intro n hn
    rcases (records_add_nodes t initSt 0).1 n hn with h | ⟨ty, name, P, rfl⟩
    · simp [initSt] at h
    · unfold mk_infra
      split <;> rfl
  · intro s hs
    rcases (records_add_nodes t initSt 0).2 s hs with h | ⟨name, P, rfl⟩
    · simp [initSt] at h
    · rfl

/-- Witness for C10: id = name on a concrete emitted SAP record and a
concrete emitted infrastructure record of the mixed tree. -/
theorem c10_witness :
    (let s0 : SapNode := { id := "eth0", name := "eth0", ports := [1] }
     s0 ∈ (add_topology_tree mixTree).node_saps ∧ s0.id = s0.name) ∧
    (let n0 : InfraNode :=
      { id := "PU#0", name := "PU#0", ports := [0], domain := "INTERNAL", ntype := "EE",
        supported := some ["headerDecompressor"],
        resources := { cpu := 1, mem := 32000, storage := 150,
                       delay := 0.5, bandwidth := 1000 } }
     n0 ∈ (add_topology_tree mixTree).node_infras ∧ n0.id = n0.name) :=
  ⟨⟨by decide, (c10_id_equals_name mixTree).2 _ (by decide)⟩,
   ⟨List.mem_cons_self _ _, (c10_id_equals_name mixTree).1 _ (List.mem_cons_self _ _)⟩⟩

/-- Unfolding equation for add_children on a cons cell. -/
theorem add_children_cons_eq (st : St) (o : HwObj) (rest : HwObjList) (d : Nat) :
    add_children st (HwObjList.cons o rest) d =
      ((add_children (add_nodes st o d).1 rest d).1,
       match (add_nodes st o d).2 with
       | none => (add_children (add_nodes st o d).1 rest d).2
       | some l => l :: (add_children (add_nodes st o d).1 rest d).2) := by
  rfl

mutual
/-- Frame property of add_nodes: the caller's collections are only appended
to, and both the appended batches and the returned stub depend only on the
input subtree and the incoming allocator, not on the collections already
accumulated. -/
theorem frame_add_nodes (obj : HwObj) : ∀ (st : St) (d : Nat),
    (add_nodes st obj d).1.node_saps =
      st.node_saps ++ (add_nodes (St.mk [] [] [] st.id) obj d).1.node_saps ∧
    (add_nodes st obj d).1.node_infras =
      st.node_infras ++ (add_nodes (St.mk [] [] [] st.id) obj d).1.node_infras ∧
    (add_nodes st obj d).1.node_edges =
      st.node_edges ++ (add_nodes (St.mk [] [] [] st.id) obj d).1.node_edges ∧
    (add_nodes st obj d).1.id = (add_nodes (St.mk [] [] [] st.id) obj d).1.id ∧
    (add_nodes st obj d).2 = (add_nodes (St.mk [] [] [] st.id) obj d).2 := by
  cases obj with
  | mk ty nm oi ifs ch =>
    intro st d
    obtain ⟨hs, hi, he, hid, hr⟩ := frame_add_children ch st (d + 1)
    have hcond : (!(add_children st ch (d + 1)).2.isEmpty
          || required_by_type (HwObj.mk ty nm oi ifs ch))
        = (!(add_children (St.mk [] [] [] st.id) ch (d + 1)).2.isEmpty
          || required_by_type (HwObj.mk ty nm oi ifs ch)) := by
      rw [hr]
    have hname : get_node_name (HwObj.mk ty nm oi ifs ch) (add_children st ch (d + 1)).1.id
        = get_node_name (HwObj.mk ty nm oi ifs ch)
            (add_children (St.mk [] [] [] st.id) ch (d + 1)).1.id := by
      rw [hid]
    by_cases hc : (!(add_children st ch (d + 1)).2.isEmpty
        || required_by_type (HwObj.mk ty nm oi ifs ch)) = true
    · rw [add_nodes_materialized st ty nm oi ifs ch d hc,
        add_nodes_materialized (St.mk [] [] [] st.id) ty nm oi ifs ch d (hcond ▸ hc)]
      refine ⟨?_, ?_, ?_, ?_, ?_⟩
      · rw [mat_out_saps, mat_out_saps, hs, hname, hr, List.append_assoc]
      · rw [mat_out_infras, mat_out_infras, hi, hname, hr, List.append_assoc]
      · rw [mat_out_edges, mat_out_edges, he, hname, hr, List.append_assoc]
      · rw [mat_out_id, mat_out_id, hname, hr]
      · rw [mat_out_snd, mat_out_snd, hname, hr]
    · simp only [Bool.not_eq_true] at hc
      rw [add_nodes_pruned st ty nm oi ifs ch d hc,
        add_nodes_pruned (St.mk [] [] [] st.id) ty nm oi ifs ch d (hcond ▸ hc)]
      exact ⟨hs, hi, he, hid, rfl⟩

/-- Frame property of add_children. -/
theorem frame_add_children (objs : HwObjList) : ∀ (st : St) (d : Nat),
    (add_children st objs d).1.node_saps =
      st.node_saps ++ (add_children (St.mk [] [] [] st.id) objs d).1.node_saps ∧
    (add_children st objs d).1.node_infras =
      st.node_infras ++ (add_children (St.mk [] [] [] st.id) objs d).1.node_infras ∧
    (add_children st objs d).1.node_edges =
      st.node_edges ++ (add_children (St.mk [] [] [] st.id) objs d).1.node_edges ∧
    (add_children st objs d).1.id = (add_children (St.mk [] [] [] st.id) objs d).1.id ∧
    (add_children st objs d).2 = (add_children (St.mk [] [] [] st.id) objs d).2 := by
  cases objs with
  | nil =>
    intro st d
    exact ⟨by simp [add_children], by simp [add_children], by simp [add_children],
      rfl, rfl⟩
  | cons o rest =>
    intro st d
    obtain ⟨os, oi2, oe, oid, or2⟩ := frame_add_nodes o st d
    obtain ⟨rs, ri, re, rid, rr⟩ := frame_add_children rest (add_nodes st o d).1 d
    obtain ⟨rs0, ri0, re0, rid0, rr0⟩ :=
      frame_add_children rest (add_nodes (St.mk [] [] [] st.id) o d).1 d
    have hidshift : (St.mk [] [] [] (add_nodes st o d).1.id)
        = (St.mk [] [] [] (add_nodes (St.mk [] [] [] st.id) o d).1.id) := by
      rw [oid]
    rw [add_children_cons_eq st o rest d,
      add_children_cons_eq (St.mk [] [] [] st.id) o rest d]
    refine ⟨?_, ?_, ?_, ?_, ?_⟩
    · rw [rs, rs0, ← hidshift, os, List.append_assoc]
    · rw [ri, ri0, ← hidshift, oi2, List.append_assoc]
    · rw [re, re0, ← hidshift, oe, List.append_assoc]
    · rw [rid, rid0, ← hidshift]
    · rw [or2, rr, rr0, ← hidshift]
end

/-- C9: the traversal is a function of the input tree and the incoming
allocator alone — the collections already accumulated are only appended to
and do not influence the appended batches or the returned stub (frame
property); consequently two runs over the same tree, each starting from
empty collections and a fresh allocator initialized to zero, produce
identical node_saps, node_infras and node_edges collections. -/
theorem c9_two_runs_identical :
    (∀ (st : St) (obj : HwObj) (d : Nat),
        (add_nodes st obj d).1.node_saps =
          st.node_saps ++ (add_nodes (St.mk [] [] [] st.id) obj d).1.node_saps ∧
        (add_nodes st obj d).1.node_infras =
          st.node_infras ++ (add_nodes (St.mk [] [] [] st.id) obj d).1.node_infras ∧
        (add_nodes st obj d).1.node_edges =
          st.node_edges ++ (add_nodes (St.mk [] [] [] st.id) obj d).1.node_edges ∧
        (add_nodes st obj d).2 = (add_nodes (St.mk [] [] [] st.id) obj d).2) ∧
    (∀ t : HwObj,
        let r1 := add_nodes
            { node_saps := [], node_infras := [], node_edges := [],
              id := { lastfreeid := 0, lastfreeidfortype := fun _ => 0 } } t 0
        let r2 := add_nodes
            { node_saps := [], node_infras := [], node_edges := [],
              id := { lastfreeid := 0, lastfreeidfortype := fun _ => 0 } } t 0
        r1.1.node_saps = r2.1.node_saps ∧ r1.1.node_infras = r2.1.node_infras ∧
        r1.1.node_edges = r2.1.node_edges ∧ r1.2 = r2.2) := by
  constructor
  · intro st obj d
    obtain ⟨hs, hi, he, _, hr⟩ := frame_add_nodes obj st d
    exact ⟨hs, hi, he, hr⟩
  · intro t
    exact ⟨rfl, rfl, rfl, rfl⟩

/-- The undirected link relation is symmetric. -/
theorem linked_symm (E : List Edge) : ∀ {a b : String}, linked E a b → linked E b a := by
  intro a b h
  obtain ⟨e, he, ht⟩ := h
  rcases ht with ⟨h1, h2⟩ | ⟨h1, h2⟩
  · exact ⟨e, he, Or.inr ⟨h1, h2⟩⟩
  · exact ⟨e, he, Or.inl ⟨h1, h2⟩⟩

/-- Path connectivity over the synthesized edges is symmetric. -/
theorem connected_symm {E : List Edge} {a b : String} (h : connected E a b) :
    connected E b a :=
  Relation.ReflTransGen.symmetric (fun _ _ hl => linked_symm E hl) h

/-- Path connectivity is preserved when the edge collection grows. -/
theorem connected_mono {E F : List Edge} {a b : String}
    (hsub : ∀ e ∈ E, e ∈ F) (h : connected E a b) : connected F a b :=
  Relation.ReflTransGen.mono (fun _ _ hl => hl.imp (fun e he => ⟨hsub e he.1, he.2⟩)) h

/-- Every collected child stub port gets an edge from the materialized node
to the stub's owning node. -/
theorem edgesFor_cover (node_name : String) :
    ∀ (ps : List (Nat × String)) (g : Nat), ∀ pn ∈ ps,
      ∃ e ∈ edgesFor node_name g ps, e.src_node = node_name ∧ e.dst_node = pn.2 := by
  intro ps
  induction ps with
  | nil =>
    intro g pn hpn
    simp at hpn
  | cons hd tl ih =>
    intro g pn hpn
    obtain ⟨dp, dn⟩ := hd
    rcases List.mem_cons.mp hpn with rfl | htl
    · exact ⟨_, List.mem_cons_self _ _, rfl, rfl⟩
    · obtain ⟨e, he, h1, h2⟩ := ih (g + 2) pn htl
      exact ⟨e, List.mem_cons_of_mem _ he, h1, h2⟩

mutual
/-- Connectivity invariant of add_nodes: the visit appends batches NS, NI,
ES to the three collections; either the subtree was pruned and the batches
are empty, or a single stub (p, n) is returned, n is the name of one of the
newly materialized nodes, and every newly materialized node is connected to
n by a path of synthesized edges. -/
theorem conn_add_nodes (obj : HwObj) : ∀ (st : St) (d : Nat),
    ∃ NS NI ES,
      (add_nodes st obj d).1.node_saps = st.node_saps ++ NS ∧
      (add_nodes st obj d).1.node_infras = st.node_infras ++ NI ∧
      (add_nodes st obj d).1.node_edges = st.node_edges ++ ES ∧
      (((add_nodes st obj d).2 = none ∧ NS = [] ∧ NI = [] ∧ ES = []) ∨
       (∃ p n, (add_nodes st obj d).2 = some [(p, n)] ∧
          n ∈ NS.map SapNode.name ++ NI.map InfraNode.name ∧
          (∀ m ∈ NS.map SapNode.name ++ NI.map InfraNode.name,
            connected (add_nodes st obj d).1.node_edges m n))) := by
  cases obj with
  | mk ty nm oi ifs ch =>
    intro st d
    obtain ⟨NS1, NI1, ES1, hs1, hi1, he1, hstub, hconn, hnil⟩ :=
      conn_add_children ch st (d + 1)
    by_cases hc : (!(add_children st ch (d + 1)).2.isEmpty
        || required_by_type (HwObj.mk ty nm oi ifs ch)) = true
    · have hm := add_nodes_materialized st ty nm oi ifs ch d hc
      rw [hm, mat_out_saps, mat_out_infras, mat_out_edges, mat_out_snd, hs1, hi1, he1]
      simp only [List.append_assoc]
      refine ⟨_, _, _, rfl, rfl, rfl, Or.inr ⟨_, _, rfl, ?_, ?_⟩⟩
      · by_cases hsap : network_sap (HwObj.mk ty nm oi ifs ch) = true
        · simp [hsap]
        · simp only [Bool.not_eq_true] at hsap
          simp [hsap, mk_infra_name]
      · intro m hmem
        have hcase : m = (get_node_name (HwObj.mk ty nm oi ifs ch)
              (add_children st ch (d + 1)).1.id).1 ∨
            m ∈ NS1.map SapNode.name ++ NI1.map InfraNode.name := by
          by_cases hsap : network_sap (HwObj.mk ty nm oi ifs ch) = true
          · simp only [hsap, reduceIte, List.map_append, List.mem_append,
              List.map_cons, List.map_nil, List.mem_cons, List.append_nil,
              List.not_mem_nil, or_false] at hmem
            simp only [List.mem_append]
            tauto
          · simp only [Bool.not_eq_true] at hsap
            simp only [hsap, Bool.false_eq_true, reduceIte, List.map_append,
              List.mem_append, List.append_nil, List.map_cons, List.map_nil,
              List.mem_cons, List.not_mem_nil, or_false, mk_infra_name] at hmem
            simp only [List.mem_append]
            tauto
        rcases hcase with rfl | hm1
        · exact Relation.ReflTransGen.refl
        · obtain ⟨pn, hpn, hconn1⟩ := hconn m hm1
          have hlift : connected (st.node_edges ++ (ES1 ++ edgesFor
              (get_node_name (HwObj.mk ty nm oi ifs ch) (add_children st ch (d + 1)).1.id).1
              (get_node_name (HwObj.mk ty nm oi ifs ch)
                (add_children st ch (d + 1)).1.id).2.lastfreeid
              (add_children st ch (d + 1)).2.flatten)) m pn.2 := by
            refine connected_mono ?_ hconn1
            intro e he
            rw [he1] at he
            rcases List.mem_append.mp he with h | h
            · exact List.mem_append_left _ h
            · exact List.mem_append_right _ (List.mem_append_left _ h)
          obtain ⟨e, heE, hesrc, hedst⟩ := edgesFor_cover
            (get_node_name (HwObj.mk ty nm oi ifs ch) (add_children st ch (d + 1)).1.id).1
            (add_children st ch (d + 1)).2.flatten
            (get_node_name (HwObj.mk ty nm oi ifs ch)
              (add_children st ch (d + 1)).1.id).2.lastfreeid
            pn hpn
          have hlink : linked (st.node_edges ++ (ES1 ++ edgesFor
              (get_node_name (HwObj.mk ty nm oi ifs ch) (add_children st ch (d + 1)).1.id).1
              (get_node_name (HwObj.mk ty nm oi ifs ch)
                (add_children st ch (d + 1)).1.id).2.lastfreeid
              (add_children st ch (d + 1)).2.flatten))
              pn.2 (get_node_name (HwObj.mk ty nm oi ifs ch)
                (add_children st ch (d + 1)).1.id).1 := by
            refine ⟨e, ?_, Or.inr ⟨hesrc, hedst⟩⟩
            exact List.mem_append_right _ (List.mem_append_right _ heE)
          exact Relation.ReflTransGen.tail hlift hlink
    · simp only [Bool.not_eq_true] at hc
      have hempty : (add_children st ch (d + 1)).2 = [] := by
        have := congrArg (fun b => b) hc
        simp only [Bool.or_eq_false_iff, Bool.not_eq_false'] at hc
        exact List.isEmpty_iff.mp hc.1
      obtain ⟨h1, h2, h3⟩ := hnil hempty
      rw [add_nodes_pruned st ty nm oi ifs ch d hc]
      exact ⟨NS1, NI1, ES1, hs1, hi1, he1, Or.inl ⟨rfl, h1, h2, h3⟩⟩

/-- Connectivity invariant of add_children: batches are appended, every
returned stub name is a newly materialized node name, and every newly
materialized node connects to the owner of one of the returned stubs. -/
theorem conn_add_children (objs : HwObjList) : ∀ (st : St) (d : Nat),
    ∃ NS NI ES,
      (add_children st objs d).1.node_saps = st.node_saps ++ NS ∧
      (add_children st objs d).1.node_infras = st.node_infras ++ NI ∧
      (add_children st objs d).1.node_edges = st.node_edges ++ ES ∧
      (∀ pn ∈ (add_children st objs d).2.flatten,
          pn.2 ∈ NS.map SapNode.name ++ NI.map InfraNode.name) ∧
      (∀ m ∈ NS.map SapNode.name ++ NI.map InfraNode.name,
          ∃ pn ∈ (add_children st objs d).2.flatten,
            connected (add_children st objs d).1.node_edges m pn.2) ∧
      ((add_children st objs d).2 = [] → NS = [] ∧ NI = [] ∧ ES = []) := by
  cases objs with
  | nil =>
    intro st d
    refine ⟨[], [], [], by simp [add_children], by simp [add_children],
      by simp [add_children], ?_, ?_, ?_⟩
    · intro pn hpn
      simp [add_children] at hpn
    · intro m hmem
      simp at hmem
    · intro _
      exact ⟨rfl, rfl, rfl⟩
  | cons o rest =>
    intro st d
    obtain ⟨NSo, NIo, ESo, os, oi2, oe, oopt⟩ := conn_add_nodes o st d
    obtain ⟨NSr, NIr, ESr, rs, ri, re, rstub, rconn, rnil⟩ :=
      conn_add_children rest (add_nodes st o d).1 d
    rw [add_children_cons_eq st o rest d]
    refine ⟨NSo ++ NSr, NIo ++ NIr, ESo ++ ESr, ?_, ?_, ?_, ?_, ?_, ?_⟩
    · rw [rs, os, List.append_assoc]
    · rw [ri, oi2, List.append_assoc]
    · rw [re, oe, List.append_assoc]
    · intro pn hpn
      simp only [List.map_append, List.mem_append]
      rcases oopt with ⟨hnone, hNSo, hNIo, hESo⟩ | ⟨p, n, hsome, hnmem, hnconn⟩
      · rw [hnone] at hpn
        have := rstub pn hpn
        rcases List.mem_append.mp this with h | h
        · exact Or.inl (Or.inr h)
        · exact Or.inr (Or.inr h)
      · rw [hsome] at hpn
        simp only [List.flatten_cons, List.mem_append, List.mem_singleton] at hpn
        rcases hpn with rfl | htail
        · rcases List.mem_append.mp hnmem with h | h
          · exact Or.inl (Or.inl h)
          · exact Or.inr (Or.inl h)
        · have := rstub pn htail
          rcases List.mem_append.mp this with h | h
          · exact Or.inl (Or.inr h)
          · exact Or.inr (Or.inr h)
    · intro m hmem
      simp only [List.map_append, List.mem_append] at hmem
      have hfromo : m ∈ NSo.map SapNode.name ++ NIo.map InfraNode.name ∨
          m ∈ NSr.map SapNode.name ++ NIr.map InfraNode.name := by
        rcases hmem with (h | h) | (h | h)
        · exact Or.inl (List.mem_append_left _ h)
        · exact Or.inr (List.mem_append_left _ h)
        · exact Or.inl (List.mem_append_right _ h)
        · exact Or.inr (List.mem_append_right _ h)
      rcases hfromo with h | h
      · rcases oopt with ⟨hnone, hNSo, hNIo, hESo⟩ | ⟨p, n, hsome, hnmem, hnconn⟩
        · rw [hNSo, hNIo] at h
          simp at h
        · have hconn1 : connected (add_nodes st o d).1.node_edges m n := hnconn m h
          have hconn2 : connected (add_children (add_nodes st o d).1 rest d).1.node_edges
              m n := by
            rw [re]
            exact connected_mono (fun e he => List.mem_append_left _ he) hconn1
          refine ⟨(p, n), ?_, hconn2⟩
          rw [hsome]
          simp
      · obtain ⟨pn, hpn, hconnr⟩ := rconn m h
        refine ⟨pn, ?_, hconnr⟩
        rcases oopt with ⟨hnone, _, _, _⟩ | ⟨p, n, hsome, _, _⟩
        · rw [hnone]
          exact hpn
        · rw [hsome]
          simp only [List.flatten_cons, List.mem_append]
          exact Or.inr hpn
    · intro hres
      rcases oopt with ⟨hnone, hNSo, hNIo, hESo⟩ | ⟨p, n, hsome, _, _⟩
      · rw [hnone] at hres
        obtain ⟨a, b, c⟩ := rnil hres
        rw [hNSo, hNIo, hESo, a, b, c]
        exact ⟨rfl, rfl, rfl⟩
      · rw [hsome] at hres
        simp at hres
end

/-- C4: any two graph nodes that survive into the output of a run (in
particular any two surviving required nodes, wherever they sat in the
original tree) are connected by a path of synthesized edges taken as
undirected links — the traversal keeps every materialized node connected to
the stub it returns, so connectivity through pruned intermediates is
preserved. -/
theorem c4_connectivity (t : HwObj) (a b : String)
    (ha : a ∈ (add_topology_tree t).nodeNames)
    (hb : b ∈ (add_topology_tree t).nodeNames) :
    connected (add_topology_tree t).node_edges a b := by
  obtain ⟨NS, NI, ES, hs, hi, he, hopt⟩ := conn_add_nodes t initSt 0
  have hnames : (add_topology_tree t).nodeNames
      = NS.map SapNode.name ++ NI.map InfraNode.name := by
    show ((add_nodes initSt t 0).1).nodeNames = _
    unfold St.nodeNames
    rw [hs, hi]
    simp [initSt]
  rcases hopt with ⟨hnone, hNS, hNI, hES⟩ | ⟨p, n, hsome, hnmem, hconn⟩
  · rw [hnames, hNS, hNI] at ha
    simp at ha
  · have hca : connected (add_nodes initSt t 0).1.node_edges a n :=
      hconn a (by rw [hnames] at ha; exact ha)
    have hcb : connected (add_nodes initSt t 0).1.node_edges b n :=
      hconn b (by rw [hnames] at hb; exact hb)
    exact Relation.ReflTransGen.trans hca (connected_symm hcb)

/-- Witness for C4: in the single-PU scenario the surviving PU and the
materialized machine root are connected by the synthesized edges. -/
theorem c4_witness :
    "PU#0" ∈ (add_topology_tree c1tree).nodeNames ∧
    "Machine!0" ∈ (add_topology_tree c1tree).nodeNames ∧
    connected (add_topology_tree c1tree).node_edges "PU#0" "Machine!0" :=
  ⟨by decide, by decide,
   c4_connectivity c1tree "PU#0" "Machine!0" (by decide) (by decide)⟩

/-- The edge-synthesis loop does not touch the infrastructure collection
(32-bit variant). -/
theorem edge_loop_u32_infras (node_name : String) (pairs : List (Nat × String)) :
    ∀ (st : St) (ports : List Nat),
      (edge_loop_u32 node_name pairs st ports).1.node_infras = st.node_infras := by
  induction pairs with
  | nil =>
    intro st ports
    rfl
  | cons hd tl ih =>
    intro st ports
    obtain ⟨dp, dn⟩ := hd
    rw [edge_loop_u32]
    rw [ih]

/-- Unfolding equation for add_children_u32 on a cons cell. -/
theorem add_children_u32_cons_eq (st : St) (o : HwObj) (rest : HwObjList) (d : Nat) :
    add_children_u32 st (HwObjList.cons o rest) d =
      ((add_children_u32 (add_nodes_u32 st o d).1 rest d).1,
       match (add_nodes_u32 st o d).2 with
       | none => (add_children_u32 (add_nodes_u32 st o d).1 rest d).2
       | some l => l :: (add_children_u32 (add_nodes_u32 st o d).1 rest d).2) := by
  rfl

/-- One PU leaf visited by the 32-bit traversal: it draws exactly one global
id g (its upward port), emits the EE record with port list [g], advances the
wrapping counter, and returns the stub (g, "PU#0"). -/
theorem add_nodes_u32_pu (st : St) (d : Nat) :
    add_nodes_u32 st puLeaf d =
      ({ st with
          node_infras := st.node_infras ++ [mk_infra HwType.PU "PU#0" [st.id.lastfreeid]],
          id := { st.id with lastfreeid := (st.id.lastfreeid + 1) % 4294967296 } },
       some [(st.id.lastfreeid, "PU#0")]) := by
  rfl

/-- Closed form of the 32-bit traversal over k PU-leaf children: the emitted
port ids are puPorts of the incoming counter and the counter advances by k
wrapping single draws. -/
theorem add_children_u32_pus : ∀ (k : Nat) (st : St) (d : Nat),
    add_children_u32 st (pusRep k) d =
      ({ st with
          node_infras := st.node_infras ++
            (puPorts st.id.lastfreeid k).map (fun p => mk_infra HwType.PU "PU#0" [p]),
          id := { st.id with lastfreeid := bumpN st.id.lastfreeid k } },
       (puPorts st.id.lastfreeid k).map (fun p => [(p, "PU#0")])) := by
  intro k
  induction k with
  | zero =>
    intro st d
    simp [pusRep, add_children_u32, puPorts, bumpN]
  | succ k ih =>
    intro st d
    rw [pusRep, add_children_u32_cons_eq, add_nodes_u32_pu, ih]
    simp only [puPorts, bumpN, List.map_cons, List.append_assoc, List.singleton_append,
      List.cons_append, List.nil_append]

/-- Walking the wrapping counter from g for at least 2^32 - g further draws
revisits the value 0. -/
theorem puPorts_zero_mem : ∀ (k g : Nat), g < 4294967296 → 4294967296 ≤ g + k →
    0 ∈ puPorts g (k + 1) := by
  intro k
  induction k with
  | zero =>
    intro g h1 h2
    omega
  | succ k ih =>
    intro g h1 h2
    by_cases hg : g + 1 = 4294967296
    · have hm : (g + 1) % 4294967296 = 0 := by
        rw [hg]
      rw [puPorts, hm, puPorts]
      exact List.mem_cons_of_mem _ (List.mem_cons_self _ _)
    · have hlt : g + 1 < 4294967296 := by omega
      have hm : (g + 1) % 4294967296 = g + 1 := Nat.mod_eq_of_lt hlt
      rw [puPorts, hm]
      exact List.mem_cons_of_mem _ (ih (g + 1) hlt (by omega))

/-- After 2^32 + 1 draws from 0 the wrapping counter has repeated a value:
the drawn sequence is not duplicate-free (0 is drawn first and drawn again
after the wrap). -/
theorem puPorts_not_nodup : ¬ (puPorts 0 4294967297).Nodup := by
  intro h
  have h1 : puPorts 0 4294967297 = 0 :: puPorts 1 4294967296 := by
    have he : (4294967297 : Nat) = 4294967296 + 1 := by norm_num
    rw [he, puPorts]
  rw [h1] at h
  have h0 : 0 ∈ puPorts 1 4294967296 := by
    have he : (4294967296 : Nat) = 4294967295 + 1 := by norm_num
    rw [he]
    exact puPorts_zero_mem 4294967295 1 (by norm_num) (by norm_num)
  exact (List.nodup_cons.mp h).1 h0

/-- Flattening a list of singletons gives back the underlying list. -/
theorem flatten_map_single : ∀ (l : List Nat), (l.map (fun p => [p])).flatten = l := by
  intro l
  induction l with
  | nil => rfl
  | cons hd tl ih => simp [ih]

/-- A node visit in the 32-bit traversal only appends to the infrastructure
collection produced by its children. -/
theorem add_nodes_u32_infras_append (ty : HwType) (nm : Option String) (oi : Option Nat)
    (ifs : List (String × String)) (ch : HwObjList) (st : St) (d : Nat) :
    ∃ L, (add_nodes_u32 st (HwObj.mk ty nm oi ifs ch) d).1.node_infras =
      (add_children_u32 st ch (d + 1)).1.node_infras ++ L := by
  rw [add_nodes_u32]
  by_cases hc : (!(add_children_u32 st ch (d + 1)).2.isEmpty
      || required_by_type (HwObj.mk ty nm oi ifs ch)) = true
  · by_cases hsap : network_sap (HwObj.mk ty nm oi ifs ch) = true
    · refine ⟨[], ?_⟩
      simp [hc, hsap, edge_loop_u32_infras]
    · simp only [Bool.not_eq_true] at hsap
      simp [hc, hsap, edge_loop_u32_infras]
  · simp only [Bool.not_eq_true] at hc
    refine ⟨[], ?_⟩
    simp [hc]

/-- C3 counterexample: on the machine root with 2^32 + 1 processing-unit
children, the 32-bit global counter (the faithful model of the C++ unsigned
int counter) wraps during the run, so the port ids across the output
collections are NOT pairwise distinct — the claim fails as stated. -/
theorem c3_counterexample :
    ¬ (((add_topology_tree_u32 c3bigTree).portIds ++
        (add_topology_tree_u32 c3bigTree).edgeIds).Nodup) := by
  intro hnd
  unfold add_topology_tree_u32 c3bigTree at hnd
  obtain ⟨L, hL⟩ :=
    add_nodes_u32_infras_append HwType.Machine none none [] (pusRep 4294967297) initSt 0
  have hchinf : (add_children_u32 initSt (pusRep 4294967297) (0 + 1)).1.node_infras =
      (puPorts 0 4294967297).map (fun p => mk_infra HwType.PU "PU#0" [p]) := by
    have hch := add_children_u32_pus 4294967297 initSt (0 + 1)
    rw [hch]
    simp [initSt, initID]
  apply puPorts_not_nodup
  have h1 : ((add_nodes_u32 initSt
      (HwObj.mk HwType.Machine none none [] (pusRep 4294967297)) 0).1.portIds).Nodup :=
    List.Nodup.sublist (List.sublist_append_left _ _) hnd
  unfold St.portIds at h1
  have h2 : (((add_nodes_u32 initSt
      (HwObj.mk HwType.Machine none none [] (pusRep 4294967297)) 0).1.node_infras.map
        InfraNode.ports).flatten).Nodup :=
    List.Nodup.sublist (List.sublist_append_right _ _) h1
  rw [hL, hchinf] at h2
  simp only [List.map_append, List.flatten_append] at h2
  have h3 : ((((puPorts 0 4294967297).map
      (fun p => mk_infra HwType.PU "PU#0" [p])).map InfraNode.ports).flatten).Nodup :=
    List.Nodup.sublist (List.sublist_append_left _ _) h2
  simp only [List.map_map, Function.comp_def, mk_infra_ports] at h3
  rw [flatten_map_single] at h3
  exact h3

/-- Naming advances each type-scoped counter by at most one. -/
theorem get_node_name_type_le (obj : HwObj) (id : ID) (L : String) :
    (get_node_name obj id).2.lastfreeidfortype L ≤ id.lastfreeidfortype L + 1 := by
  unfold get_node_name
  split
  · exact Nat.le_succ _
  · split
    · exact Nat.le_succ _
    · simp only [ID.get_next_id_for_type]
      by_cases hL : L = get_node_type obj.hwtype
      · simp [hL]
      · simp [hL]

/-- While the drawn type-scoped counter has room below 2^32, the 32-bit
naming step agrees with the idealized one. -/
theorem get_node_name_u32_eq (obj : HwObj) (id : ID)
    (h : id.lastfreeidfortype (get_node_type obj.hwtype) + 1 < 4294967296) :
    get_node_name_u32 obj id = get_node_name obj id := by
  have hm : (id.lastfreeidfortype (get_node_type obj.hwtype) + 1) % 4294967296
      = id.lastfreeidfortype (get_node_type obj.hwtype) + 1 := Nat.mod_eq_of_lt h
  cases hnm : obj.objname <;> cases hsap : network_sap obj <;>
    cases hos : obj.os_index <;> cases hidx : indexed_type obj.hwtype <;>
      simp [get_node_name_u32, get_node_name, hnm, hsap, hos, hidx,
        ID.get_next_id_for_type_u32, ID.get_next_id_for_type, hm]

/-- While the counter interval consumed by the loop stays below 2^32, the
32-bit edge loop agrees with the idealized one. -/
theorem edge_loop_u32_eq (node_name : String) (pairs : List (Nat × String)) :
    ∀ (st : St) (ports : List Nat),
      st.id.lastfreeid + 2 * pairs.length < 4294967296 →
      edge_loop_u32 node_name pairs st ports = edge_loop node_name pairs st ports := by
  induction pairs with
  | nil =>
    intro st ports h
    rfl
  | cons hd tl ih =>
    intro st ports h
    obtain ⟨dp, dn⟩ := hd
    simp only [List.length_cons] at h
    have h1 : (st.id.lastfreeid + 1) % 4294967296 = st.id.lastfreeid + 1 :=
      Nat.mod_eq_of_lt (by omega)
    have h2 : (st.id.lastfreeid + 1 + 1) % 4294967296 = st.id.lastfreeid + 1 + 1 :=
      Nat.mod_eq_of_lt (by omega)
    rw [edge_loop_u32, edge_loop]
    simp only [ID.get_next_global_id_u32, ID.get_next_global_id, h1, h2]
    exact ih _ _ (by simp only []; omega)

/-- The global counter after a node visit is at least the counter after its
children were visited. -/
theorem add_nodes_gid_mono (ty : HwType) (nm : Option String) (oi : Option Nat)
    (ifs : List (String × String)) (ch : HwObjList) (st : St) (d : Nat) :
    (add_children st ch (d + 1)).1.id.lastfreeid ≤
      (add_nodes st (HwObj.mk ty nm oi ifs ch) d).1.id.lastfreeid := by
  by_cases hc : (!(add_children st ch (d + 1)).2.isEmpty
      || required_by_type (HwObj.mk ty nm oi ifs ch)) = true
  · rw [add_nodes_materialized st ty nm oi ifs ch d hc, mat_out_lastfreeid,
      get_node_name_lastfreeid]
    omega
  · simp only [Bool.not_eq_true] at hc
    rw [add_nodes_pruned st ty nm oi ifs ch d hc]

/-- While the counter has room below 2^32, the 32-bit global draw agrees
with the idealized one. -/
theorem get_next_global_id_u32_eq (id : ID) (h : id.lastfreeid + 1 < 4294967296) :
    id.get_next_global_id_u32 = id.get_next_global_id := by
  unfold ID.get_next_global_id_u32 ID.get_next_global_id
  rw [Nat.mod_eq_of_lt h]

/-- The 32-bit materialization step coincides with the idealized closed form
mat_out while the counter interval it consumes stays below 2^32. -/
theorem add_nodes_u32_materialized (st : St) (ty : HwType) (nm : Option String)
    (oi : Option Nat) (ifs : List (String × String)) (ch : HwObjList) (d : Nat)
    (hch : add_children_u32 st ch (d + 1) = add_children st ch (d + 1))
    (hc : (!(add_children st ch (d + 1)).2.isEmpty
          || required_by_type (HwObj.mk ty nm oi ifs ch)) = true)
    (hnb : (add_children st ch (d + 1)).1.id.lastfreeidfortype (get_node_type ty) + 1
        < 4294967296)
    (hgb : (add_children st ch (d + 1)).1.id.lastfreeid
        + 2 * (add_children st ch (d + 1)).2.flatten.length + 1 < 4294967296) :
    add_nodes_u32 st (HwObj.mk ty nm oi ifs ch) d =
      mat_out ty (network_sap (HwObj.mk ty nm oi ifs ch))
        (get_node_name (HwObj.mk ty nm oi ifs ch) (add_children st ch (d + 1)).1.id).1
        (get_node_name (HwObj.mk ty nm oi ifs ch) (add_children st ch (d + 1)).1.id).2
        (add_children st ch (d + 1)).2.flatten
        (add_children st ch (d + 1)).1 := by
  have hg : (get_node_name (HwObj.mk ty nm oi ifs ch)
      (add_children st ch (d + 1)).1.id).2.lastfreeid
      = (add_children st ch (d + 1)).1.id.lastfreeid := get_node_name_lastfreeid _ _
  rw [add_nodes_u32]
  rw [hch]
  simp only [hc]
  rw [get_node_name_u32_eq _ _ hnb]
  rw [edge_loop_u32_eq _ _ _ _ (by simp only [get_node_name_lastfreeid]; omega)]
  rw [edge_loop_eq]
  rw [get_next_global_id_u32_eq _ (by simp only [get_node_name_lastfreeid]; omega)]
  unfold mat_out
  by_cases hs : network_sap (HwObj.mk ty nm oi ifs ch)
  · simp only [hs, if_true, ID.get_next_global_id]
    simp [hg]
  · simp only [hs, if_false, ID.get_next_global_id]
    simp [hg]

/-- Collapse rule branch of the 32-bit traversal. -/
theorem add_nodes_u32_pruned (st : St) (ty : HwType) (nm : Option String) (oi : Option Nat)
    (ifs : List (String × String)) (ch : HwObjList) (d : Nat)
    (h : (!(add_children_u32 st ch (d + 1)).2.isEmpty
          || required_by_type (HwObj.mk ty nm oi ifs ch)) = false) :
    add_nodes_u32 st (HwObj.mk ty nm oi ifs ch) d =
      ((add_children_u32 st ch (d + 1)).1, none) := by
  rw [add_nodes_u32]
  simp only [h]
  simp

mutual
/-- While the run consumes fewer than 2^32 global ids, the 32-bit traversal
agrees with the idealized one on a subtree, and the type-scoped counters
stay dominated by the global counter. -/
theorem u32_eq_nodes (obj : HwObj) : ∀ (st : St) (d : Nat),
    (add_nodes st obj d).1.id.lastfreeid < 4294967296 →
    (∀ L, st.id.lastfreeidfortype L ≤ st.id.lastfreeid) →
    add_nodes_u32 st obj d = add_nodes st obj d ∧
    (∀ L, (add_nodes st obj d).1.id.lastfreeidfortype L ≤
      (add_nodes st obj d).1.id.lastfreeid) := by
  cases obj with
  | mk ty nm oi ifs ch =>
    intro st d hb hinv
    have hmono := add_nodes_gid_mono ty nm oi ifs ch st d
    have hbch : (add_children st ch (d + 1)).1.id.lastfreeid < 4294967296 :=
      lt_of_le_of_lt hmono hb
    obtain ⟨hcheq, hchinv⟩ := u32_eq_children ch st (d + 1) hbch hinv
    by_cases hc : (!(add_children st ch (d + 1)).2.isEmpty
        || required_by_type (HwObj.mk ty nm oi ifs ch)) = true
    · have hfin : (add_nodes st (HwObj.mk ty nm oi ifs ch) d).1.id.lastfreeid
          = (add_children st ch (d + 1)).1.id.lastfreeid
            + 2 * (add_children st ch (d + 1)).2.flatten.length + 1 := by
        rw [add_nodes_materialized st ty nm oi ifs ch d hc, mat_out_lastfreeid,
          get_node_name_lastfreeid]
      have hgb : (add_children st ch (d + 1)).1.id.lastfreeid
          + 2 * (add_children st ch (d + 1)).2.flatten.length + 1 < 4294967296 := by
        rw [← hfin]
        exact hb
      have hnb : (add_children st ch (d + 1)).1.id.lastfreeidfortype (get_node_type ty) + 1
          < 4294967296 := by
        have := hchinv (get_node_type ty)
        omega
      constructor
      · rw [add_nodes_u32_materialized st ty nm oi ifs ch d hcheq hc hnb hgb,
          add_nodes_materialized st ty nm oi ifs ch d hc]
      · intro L
        rw [add_nodes_materialized st ty nm oi ifs ch d hc, mat_out_id]
        have h1 := get_node_name_type_le (HwObj.mk ty nm oi ifs ch)
          (add_children st ch (d + 1)).1.id L
        have h2 := hchinv L
        simp only [get_node_name_lastfreeid]
        omega
    · simp only [Bool.not_eq_true] at hc
      have hcu : (!(add_children_u32 st ch (d + 1)).2.isEmpty
          || required_by_type (HwObj.mk ty nm oi ifs ch)) = false := by
        rw [hcheq]
        exact hc
      constructor
      · rw [add_nodes_u32_pruned st ty nm oi ifs ch d hcu, hcheq,
          add_nodes_pruned st ty nm oi ifs ch d hc]
      · intro L
        rw [add_nodes_pruned st ty nm oi ifs ch d hc]
        exact hchinv L

/-- Equivalence of the 32-bit and idealized child loops under the same
no-wrap bound. -/
theorem u32_eq_children (objs : HwObjList) : ∀ (st : St) (d : Nat),
    (add_children st objs d).1.id.lastfreeid < 4294967296 →
    (∀ L, st.id.lastfreeidfortype L ≤ st.id.lastfreeid) →
    add_children_u32 st objs d = add_children st objs d ∧
    (∀ L, (add_children st objs d).1.id.lastfreeidfortype L ≤
      (add_children st objs d).1.id.lastfreeid) := by
  cases objs with
  | nil =>
    intro st d hb hinv
    exact ⟨rfl, hinv⟩
  | cons o rest =>
    intro st d hb hinv
    have hb' : (add_children (add_nodes st o d).1 rest d).1.id.lastfreeid < 4294967296 := by
      rw [← add_children_cons_fst]
      exact hb
    have hbo : (add_nodes st o d).1.id.lastfreeid < 4294967296 :=
      lt_of_le_of_lt (goodTrans_add_children rest (add_nodes st o d).1 d).1 hb'
    obtain ⟨ho, hoinv⟩ := u32_eq_nodes o st d hbo hinv
    obtain ⟨hr, hrinv⟩ := u32_eq_children rest (add_nodes st o d).1 d hb' hoinv
    constructor
    · rw [add_children_u32_cons_eq, add_children_cons_eq, ho, hr]
    · intro L
      rw [add_children_cons_fst]
      exact hrinv L
end

/-- C3 (amended): the port ids across node_saps and node_infras and the edge
ids of a run are pairwise distinct provided the run draws fewer than 2^32
identifiers from the global counter — the counter is a 32-bit unsigned int,
so it never repeats a value exactly while it does not wrap; under that bound
the 32-bit run moreover coincides with the idealized unbounded-counter run. -/
theorem c3_amended_no_wrap (t : HwObj)
    (h : (add_nodes initSt t 0).1.id.lastfreeid < 4294967296) :
    add_topology_tree_u32 t = add_topology_tree t ∧
    ((add_topology_tree_u32 t).portIds ++ (add_topology_tree_u32 t).edgeIds).Nodup := by
  obtain ⟨heq, -⟩ := u32_eq_nodes t initSt 0 h (fun L => le_refl 0)
  have heq' : add_topology_tree_u32 t = add_topology_tree t := by
    unfold add_topology_tree_u32 add_topology_tree
    rw [heq]
  refine ⟨heq', ?_⟩
  rw [heq']
  exact ids_nodup_unbounded t

/-- Witness for the amended C3: the single-PU scenario draws 4 < 2^32 ids,
so its 32-bit run equals the idealized run and all its ids are distinct. -/
theorem c3_witness :
    (add_nodes initSt c1tree 0).1.id.lastfreeid < 4294967296 ∧
    (add_topology_tree_u32 c1tree = add_topology_tree c1tree ∧
     ((add_topology_tree_u32 c1tree).portIds ++
       (add_topology_tree_u32 c1tree).edgeIds).Nodup) :=
  ⟨by decide, c3_amended_no_wrap c1tree (by decide)⟩
